import Mathlib

/-!
# Verification of the XCMP queue engine

A shallow embedding of `cumulus/pallets/xcmp-queue/src/lib.rs`: the outbound
page writer (`send_fragment`), the signal path (`send_signal`), the outbound
suspension state machine (`suspend_channel` / `resume_channel`), the queue
configuration updates, the inbound congestion controller (`on_queue_changed`)
and the outbound extraction scheduler (`take_outbound_messages`).

Machine integers are modelled as `Nat` (the spec assumes queues never grow
past the 16-bit index range, and runtime builds trap on overflow).  Storage
maps with `ValueQuery` defaults are modelled as total functions returning the
default value; removing a key is observationally the same as storing the
default.  The delivery-fee factor (`FixedU128`) is modelled as a rational.
-/

set_option linter.unusedVariables false
set_option maxRecDepth 100000

namespace XcmpQueue

/-- Peer chain identifier; models `ParaId`. -/
abbrev ParaId := Nat

/-- One byte of a message page, modelled as a natural number. -/
abbrev Byte := Nat

/-- Modelled from the spec: the one-item format discriminator that begins every
page (the `XcmpMessageFormat` type lives in `cumulus-primitives-core`, outside
the sampled sources; spec section 6: each page begins with a one-item format
discriminator, with variants Signals, concatenated payload, unsupported blob). -/
inductive XcmpMessageFormat where
  | Signals
  | ConcatenatedVersionedXcm
  | ConcatenatedEncodedBlob
deriving DecidableEq, Repr

/-- Modelled from the spec: the SCALE encoding of the one-item format
discriminator is its single index byte. -/
def XcmpMessageFormat.encode : XcmpMessageFormat → List Byte
  | .Signals => [0]
  | .ConcatenatedVersionedXcm => [1]
  | .ConcatenatedEncodedBlob => [2]

/-- Modelled from the spec: decoding a format discriminator from the front of a
byte buffer reads exactly one byte; an unknown index byte or an empty buffer is
a decode failure. -/
def XcmpMessageFormat.decode : List Byte → Option XcmpMessageFormat
  | 0 :: _ => some .Signals
  | 1 :: _ => some .ConcatenatedVersionedXcm
  | 2 :: _ => some .ConcatenatedEncodedBlob
  | _ => none

/-- A control frame: `ChannelSignal` from the source. -/
inductive ChannelSignal where
  | Suspend
  | Resume
deriving DecidableEq, Repr

/-- Modelled from the spec: SCALE encoding of a control frame is its index byte. -/
def ChannelSignal.encode : ChannelSignal → List Byte
  | .Suspend => [0]
  | .Resume => [1]

/-- Modelled from the spec (section 6, transport boundary):
`channel_status(peer) -> Closed | Full | Ready(current_size_limit, historical_max_size)`. -/
inductive ChannelStatus where
  | Closed
  | Full
  | Ready (maxSizeNow maxSizeEver : Nat)
deriving DecidableEq, Repr

/-- Modelled from the spec (section 6, transport boundary):
`channel_capacity(peer) -> (max_message_size, max_total_size)`. -/
structure ChannelInfo where
  max_message_size : Nat
  max_total_size : Nat
deriving DecidableEq, Repr

/-- Modelled from the spec: the send-error type returned by the outbound page
writer (`MessageSendError` of `cumulus-primitives-core`); the variants used by
`send_fragment` are `NoChannel`, `TooBig` and `TooManyChannels`. -/
inductive MessageSendError where
  | NoChannel
  | TooBig
  | TooManyChannels
deriving DecidableEq, Repr

/-- The pallet error enum `Error<T>`. -/
inductive PalletError where
  | BadQueueConfig
  | AlreadySuspended
  | AlreadyResumed
  | TooManyActiveOutboundChannels
  | TooBig
deriving DecidableEq, Repr

/-- `OutboundState` from the source. -/
inductive OutboundState where
  | Ok
  | Suspended
deriving DecidableEq, Repr

/-- `OutboundChannelDetails` from the source. -/
structure OutboundChannelDetails where
  recipient : ParaId
  state : OutboundState
  signals_exist : Bool
  first_index : Nat
  last_index : Nat
deriving DecidableEq, Repr

/-- `OutboundChannelDetails::new`. -/
def OutboundChannelDetails.new (recipient : ParaId) : OutboundChannelDetails :=
  { recipient := recipient
    state := .Ok
    signals_exist := false
    first_index := 0
    last_index := 0 }

/-- `OutboundChannelDetails::with_signals`. -/
def OutboundChannelDetails.with_signals (d : OutboundChannelDetails) : OutboundChannelDetails :=
  { d with signals_exist := true }

/-- `OutboundChannelDetails::with_suspended_state`. -/
def OutboundChannelDetails.with_suspended_state (d : OutboundChannelDetails) :
    OutboundChannelDetails :=
  { d with state := .Suspended }

/-- `QueueConfigData` from the source. -/
structure QueueConfigData where
  suspend_threshold : Nat
  drop_threshold : Nat
  resume_threshold : Nat
deriving DecidableEq, Repr

/-- `Default for QueueConfigData` (genesis values). -/
def QueueConfigData.genesisDefault : QueueConfigData :=
  { drop_threshold := 48
    suspend_threshold := 32
    resume_threshold := 8 }

/-- `QueueConfigData::validate`: `Ok` exactly when
`resume_threshold < suspend_threshold && suspend_threshold <= drop_threshold && resume_threshold > 0`. -/
def QueueConfigData.validate (q : QueueConfigData) : Except PalletError Unit :=
  if q.resume_threshold < q.suspend_threshold ∧
      q.suspend_threshold ≤ q.drop_threshold ∧
      q.resume_threshold > 0 then
    .ok ()
  else
    .error .BadQueueConfig

/-- `THRESHOLD_FACTOR` from `delivery_fee_constants`. -/
def THRESHOLD_FACTOR : Nat := 2

/-- `MAX_POSSIBLE_ALLOCATION` from `sp_core` (32 MiB), the fallback
`max_total_size` when the messaging state is absent. -/
def MAX_POSSIBLE_ALLOCATION : Nat := 33554432

/-- The static configuration of the pallet: the `Config` trait constants, the
transport boundary `T::ChannelInfo`, and the fee-controller steps.  The fee
steps are modelled from the spec (section 4.7: escalation multiplies the stored
factor by a fixed exponential step; decay multiplies by a fixed decay step,
floored at the configured minimum), since the `FeeTracker` implementation lives
outside the sampled sources. -/
structure Config where
  maxPageSize : Nat
  maxActiveOutboundChannels : Nat
  maxInboundSuspended : Nat
  getChannelInfo : ParaId → Option ChannelInfo
  getChannelStatus : ParaId → ChannelStatus
  feeStep : ℚ
  decayStep : ℚ
  minFeeFactor : ℚ

/-- The pallet storage: `OutboundXcmpStatus`, `OutboundXcmpMessages`,
`SignalMessages`, `QueueConfig`, `InboundXcmpSuspended`, `DeliveryFeeFactor`.
The two maps with `ValueQuery` defaults are total functions; an absent key maps
to the default (empty page / minimum fee factor). -/
structure XcmpState where
  outboundStatus : List OutboundChannelDetails
  outboundMessages : ParaId → Nat → List Byte
  signalMessages : ParaId → List Byte
  queueConfig : QueueConfigData
  inboundSuspended : Finset ParaId
  feeFactor : ParaId → ℚ

/-- Pointwise update of the `OutboundXcmpMessages` double map. -/
def setPage (m : ParaId → Nat → List Byte) (p : ParaId) (i : Nat) (v : List Byte) :
    ParaId → Nat → List Byte :=
  fun q j => if q = p ∧ j = i then v else m q j

/-- Pointwise update of the `SignalMessages` map. -/
def setSignal (m : ParaId → List Byte) (p : ParaId) (v : List Byte) : ParaId → List Byte :=
  fun q => if q = p then v else m q

/-- Pointwise update of the `DeliveryFeeFactor` map. -/
def setFee (m : ParaId → ℚ) (p : ParaId) (v : ℚ) : ParaId → ℚ :=
  fun q => if q = p then v else m q

/-- The empty genesis state for a given configuration. -/
def emptyState (cfg : Config) : XcmpState :=
  { outboundStatus := []
    outboundMessages := fun _ _ => []
    signalMessages := fun _ => []
    queueConfig := QueueConfigData.genesisDefault
    inboundSuspended := ∅
    feeFactor := fun _ => cfg.minFeeFactor }

/-- Modelled from the spec (section 4.7): `escalate` multiplies the stored
fee factor for the peer by the fixed exponential step.  (`increase_fee_factor`
is provided by the `FeeTracker` trait of `polkadot-runtime-parachains`, which
is outside the sampled sources.) -/
def increaseFeeFactor (cfg : Config) (s : XcmpState) (p : ParaId) : XcmpState :=
  { s with feeFactor := setFee s.feeFactor p (s.feeFactor p * cfg.feeStep) }

/-- Modelled from the spec (section 4.7): `decay` multiplies the stored fee
factor by the fixed decay step, floored so it never drops below the configured
minimum. -/
def decreaseFeeFactor (cfg : Config) (s : XcmpState) (p : ParaId) : XcmpState :=
  { s with feeFactor := setFee s.feeFactor p (max cfg.minFeeFactor (s.feeFactor p * cfg.decayStep)) }

/-- The body of `send_fragment` after the channel record has been located (or
freshly created) at position `idx` of `channels`.  Returns, as in the source,
the pair `(number_of_pages, last_page_size)` together with the new state. -/
def sendFragmentCore (cfg : Config) (s : XcmpState) (recipient : ParaId)
    (format : XcmpMessageFormat) (encodedFragment : List Byte)
    (channelInfo : ChannelInfo) (maxMessageSize : Nat)
    (channels : List OutboundChannelDetails) (idx : Nat) :
    Except MessageSendError (Nat × Nat × XcmpState) :=
  let details := channels.getD idx (OutboundChannelDetails.new recipient)
  let haveActive := details.last_index > details.first_index
  -- Try to append the fragment to the last page, if there is enough space.
  -- `none` models the reverted `try_mutate`: the page store is unchanged.
  let appendedToLastPage : Option (List Byte) :=
    if haveActive then
      let page := s.outboundMessages recipient (details.last_index - 1)
      if XcmpMessageFormat.decode page = some format then
        if page.length + encodedFragment.length > maxMessageSize then
          none
        else if page.length + encodedFragment.length > cfg.maxPageSize then
          -- the `try_push` bound of the stored vector
          none
        else
          some (page ++ encodedFragment)
      else
        -- defensive: bad format in outbound queue
        none
    else
      none
  let afterWrite : Except MessageSendError (Nat × Nat × XcmpState) :=
    match appendedToLastPage with
    | some newPage =>
        let numberOfPages := details.last_index - details.first_index
        .ok (numberOfPages, newPage.length,
          { s with outboundMessages :=
              setPage s.outboundMessages recipient (details.last_index - 1) newPage })
    | none =>
        -- Need to add a new page.
        let pageIndex := details.last_index
        let details' := { details with last_index := details.last_index + 1 }
        let newPage := format.encode ++ encodedFragment
        let lastPageSize := newPage.length
        let numberOfPages := details'.last_index - details'.first_index
        if newPage.length > cfg.maxPageSize then
          .error .TooBig
        else
          .ok (numberOfPages, lastPageSize,
            { s with
              outboundMessages := setPage s.outboundMessages recipient pageIndex newPage
              outboundStatus := channels.set idx details' })
  match afterWrite with
  | .error e => .error e
  | .ok (numberOfPages, lastPageSize, s') =>
      let totalSize := (numberOfPages - 1) * maxMessageSize + lastPageSize
      let threshold := channelInfo.max_total_size / THRESHOLD_FACTOR
      if totalSize > threshold then
        .ok (numberOfPages, lastPageSize, increaseFeeFactor cfg s' recipient)
      else
        .ok (numberOfPages, lastPageSize, s')

/-- `send_fragment`, returning additionally the intermediate `last_page_size`
of the source.  The fragment is taken already SCALE-encoded (the Rust function
is generic over `Fragment: Encode` and only ever uses `fragment.encode()`). -/
def sendFragmentAux (cfg : Config) (s : XcmpState) (recipient : ParaId)
    (format : XcmpMessageFormat) (encodedFragment : List Byte) :
    Except MessageSendError (Nat × Nat × XcmpState) :=
  match cfg.getChannelInfo recipient with
  | none => .error .NoChannel
  | some channelInfo =>
      let maxMessageSize := min channelInfo.max_message_size cfg.maxPageSize
      let formatSize := format.encode.length
      let sizeToCheck := encodedFragment.length + formatSize
      if sizeToCheck > maxMessageSize then
        .error .TooBig
      else
        match s.outboundStatus.findIdx? (fun c => c.recipient = recipient) with
        | some idx =>
            sendFragmentCore cfg s recipient format encodedFragment channelInfo maxMessageSize
              s.outboundStatus idx
        | none =>
            if s.outboundStatus.length < cfg.maxActiveOutboundChannels then
              sendFragmentCore cfg s recipient format encodedFragment channelInfo maxMessageSize
                (s.outboundStatus ++ [OutboundChannelDetails.new recipient])
                s.outboundStatus.length
            else
              .error .TooManyChannels

/-- `send_fragment`: places `encodedFragment` on the outgoing queue for
`recipient`; on success returns the number of queued pages and the new state. -/
def sendFragment (cfg : Config) (s : XcmpState) (recipient : ParaId)
    (format : XcmpMessageFormat) (encodedFragment : List Byte) :
    Except MessageSendError (Nat × XcmpState) :=
  match sendFragmentAux cfg s recipient format encodedFragment with
  | .error e => .error e
  | .ok (numberOfPages, _, s') => .ok (numberOfPages, s')

/-- `send_signal`: marks `signals_exist` on the record for `dest` (creating
the record if absent) and stores a fresh one-page control frame, overwriting
any pending signal. -/
def sendSignal (cfg : Config) (s : XcmpState) (dest : ParaId) (signal : ChannelSignal) :
    Except PalletError XcmpState :=
  let commit : List OutboundChannelDetails → Except PalletError XcmpState := fun status =>
    let page := XcmpMessageFormat.Signals.encode ++ signal.encode
    if page.length ≤ cfg.maxPageSize then
      .ok { s with
        signalMessages := setSignal s.signalMessages dest page
        outboundStatus := status }
    else
      .error .TooBig
  match s.outboundStatus.findIdx? (fun c => c.recipient = dest) with
  | some idx =>
      let details := s.outboundStatus.getD idx (OutboundChannelDetails.new dest)
      commit (s.outboundStatus.set idx { details with signals_exist := true })
  | none =>
      if s.outboundStatus.length < cfg.maxActiveOutboundChannels then
        commit (s.outboundStatus ++ [(OutboundChannelDetails.new dest).with_signals])
      else
        .error .TooManyActiveOutboundChannels

/-- `suspend_channel`: sets the record for `target` to `Suspended`, creating it
in the suspended state if absent (dropped defensively when the registry is
full). -/
def suspendChannel (cfg : Config) (s : XcmpState) (target : ParaId) : XcmpState :=
  match s.outboundStatus.findIdx? (fun c => c.recipient = target) with
  | some idx =>
      let details := s.outboundStatus.getD idx (OutboundChannelDetails.new target)
      -- defensive assert: the channel should have been Ok
      { s with outboundStatus := s.outboundStatus.set idx { details with state := .Suspended } }
  | none =>
      if s.outboundStatus.length < cfg.maxActiveOutboundChannels then
        { s with outboundStatus :=
            s.outboundStatus ++ [(OutboundChannelDetails.new target).with_suspended_state] }
      else
        -- defensive: cannot pause channel; too many outbound channels
        s

/-- `resume_channel`: on a present record, removes it when its page range is
empty and otherwise sets its state to `Ok`; a missing record is only logged. -/
def resumeChannel (s : XcmpState) (target : ParaId) : XcmpState :=
  match s.outboundStatus.findIdx? (fun c => c.recipient = target) with
  | some idx =>
      let details := s.outboundStatus.getD idx (OutboundChannelDetails.new target)
      -- defensive assert: the channel should have been Suspended
      if details.first_index = details.last_index then
        { s with outboundStatus := s.outboundStatus.eraseIdx idx }
      else
        { s with outboundStatus := s.outboundStatus.set idx { details with state := .Ok } }
  | none =>
      -- defensive: attempt to resume a channel that was not suspended
      s

/-- `update_suspend_threshold`: overwrite the field, validate, commit only on
success (`try_mutate` reverts on error). -/
def updateSuspendThreshold (s : XcmpState) (new : Nat) : Except PalletError XcmpState :=
  let d := { s.queueConfig with suspend_threshold := new }
  match d.validate with
  | .ok _ => .ok { s with queueConfig := d }
  | .error e => .error e

/-- `update_drop_threshold`: overwrite the field, validate, commit only on
success. -/
def updateDropThreshold (s : XcmpState) (new : Nat) : Except PalletError XcmpState :=
  let d := { s.queueConfig with drop_threshold := new }
  match d.validate with
  | .ok _ => .ok { s with queueConfig := d }
  | .error e => .error e

/-- `update_resume_threshold`: overwrite the field, validate, commit only on
success. -/
def updateResumeThreshold (s : XcmpState) (new : Nat) : Except PalletError XcmpState :=
  let d := { s.queueConfig with resume_threshold := new }
  match d.validate with
  | .ok _ => .ok { s with queueConfig := d }
  | .error e => .error e

/-- Clears every page of peer `p` with index in `[a, b)` (the removal loop run
by the scheduler when the transport reports the channel closed). -/
def clearRange (m : ParaId → Nat → List Byte) (p : ParaId) (a b : Nat) :
    ParaId → Nat → List Byte :=
  fun q j => if q = p ∧ a ≤ j ∧ j < b then [] else m q j

/-- The accumulator threaded through the scheduler's loop over the registry:
the three storage maps it mutates plus the result list built so far. -/
structure TakeAcc where
  messages : ParaId → Nat → List Byte
  signals : ParaId → List Byte
  fee : ParaId → ℚ
  result : List (ParaId × List Byte)

/-- One iteration of the scheduler's loop for a record whose transport status
is `Ready maxSizeNow maxSizeEver` (after the budget check): pick the signal
page, else a data page of a non-suspended record, else leave everything
untouched; reset the indices when the range empties; drop (defensively) a page
exceeding `maxSizeEver`; then run the fee-decay check. -/
def processReady (cfg : Config) (acc : TakeAcc) (st : OutboundChannelDetails)
    (maxSizeNow maxSizeEver : Nat) : TakeAcc × OutboundChannelDetails :=
  let picked : Option (List Byte × (ParaId → Nat → List Byte) × (ParaId → List Byte)
      × Bool × Nat) :=
    if st.signals_exist then
      let page := acc.signals st.recipient
      -- defensive assert: signals must exist (the page should be non-empty)
      if page.length < maxSizeNow then
        some (page, acc.messages, setSignal acc.signals st.recipient [], false, st.first_index)
      else
        -- defensive: signals should fit into a single page
        none
    else if st.state = .Suspended then
      -- signals are exempt from suspension; data pages are not
      none
    else if st.last_index > st.first_index then
      let page := acc.messages st.recipient st.first_index
      if page.length < maxSizeNow then
        some (page, setPage acc.messages st.recipient st.first_index [], acc.signals,
          st.signals_exist, st.first_index + 1)
      else
        none
    else
      none
  match picked with
  | none => (acc, st)
  | some (page, msgs, sigs, sigExist, first1) =>
      let indices := if first1 = st.last_index then (0, 0) else (first1, st.last_index)
      let first2 := indices.1
      let last2 := indices.2
      let result' :=
        if page.length > maxSizeEver then
          -- defensive: oversize message in queue - dropping
          acc.result
        else
          acc.result ++ [(st.recipient, page)]
      let maxTotalSize :=
        match cfg.getChannelInfo st.recipient with
        | some channelInfo => channelInfo.max_total_size
        | none => MAX_POSSIBLE_ALLOCATION
      let threshold := maxTotalSize / THRESHOLD_FACTOR
      let remainingTotalSize :=
        ((List.range' first2 (last2 - first2)).map fun i => (msgs st.recipient i).length).sum
      let fee' :=
        if remainingTotalSize ≤ threshold then
          setFee acc.fee st.recipient
            (max cfg.minFeeFactor (acc.fee st.recipient * cfg.decayStep))
        else
          acc.fee
      ({ messages := msgs, signals := sigs, fee := fee', result := result' },
        { recipient := st.recipient, state := st.state, signals_exist := sigExist,
          first_index := first2, last_index := last2 })

/-- The scheduler's loop over the registry snapshot.  A `Closed` channel is
purged and its record reset; a `Full` channel is skipped; a `Ready` channel
first checks the result-count budget (breaking out of the loop, which leaves
every remaining record untouched) and is then processed by `processReady`. -/
def takeLoop (cfg : Config) (maxMessageCount : Nat) :
    List OutboundChannelDetails → TakeAcc → List OutboundChannelDetails × TakeAcc
  | [], acc => ([], acc)
  | st :: rest, acc =>
      match cfg.getChannelStatus st.recipient with
      | .Closed =>
          let msgs := clearRange acc.messages st.recipient st.first_index st.last_index
          let sigs :=
            if st.signals_exist then setSignal acc.signals st.recipient [] else acc.signals
          let acc' := { acc with messages := msgs, signals := sigs }
          let next := takeLoop cfg maxMessageCount rest acc'
          (OutboundChannelDetails.new st.recipient :: next.1, next.2)
      | .Full =>
          let next := takeLoop cfg maxMessageCount rest acc
          (st :: next.1, next.2)
      | .Ready maxSizeNow maxSizeEver =>
          if acc.result.length = maxMessageCount then
            (st :: rest, acc)
          else
            let step := processReady cfg acc st maxSizeNow maxSizeEver
            let next := takeLoop cfg maxMessageCount rest step.1
            (step.2 :: next.1, next.2)

/-- Stable insertion of one result entry into a list sorted by ascending
recipient (an element is inserted before the first strictly greater key, and
after equal keys already present to its left). -/
def insertByKey (x : ParaId × List Byte) :
    List (ParaId × List Byte) → List (ParaId × List Byte)
  | [] => [x]
  | y :: ys => if x.1 ≤ y.1 then x :: y :: ys else y :: insertByKey x ys

/-- The stable sort by ascending recipient applied to the scheduler's result
(`result.sort_by_key(|m| m.0)` in the source). -/
def sortByKey : List (ParaId × List Byte) → List (ParaId × List Byte)
  | [] => []
  | x :: xs => insertByKey x (sortByKey xs)

/-- `try_rotate_left`: rotate the list left by `k` positions when `k` is at
most the length (it always is at the call site), otherwise leave it unrotated
(the defensive failure branch). -/
def rotateLeftBy (l : List OutboundChannelDetails) (k : Nat) : List OutboundChannelDetails :=
  if k ≤ l.length then l.drop k ++ l.take k else l

/-- `take_outbound_messages`: harvest at most one page per peer, bounded by
`maximumChannels`, then sort the result by ascending recipient, prune drained
records and rotate the registry to avoid starvation. -/
def takeOutboundMessages (cfg : Config) (s : XcmpState) (maximumChannels : Nat) :
    List (ParaId × List Byte) × XcmpState :=
  let statuses := s.outboundStatus
  let oldStatusesLen := statuses.length
  let maxMessageCount := min statuses.length maximumChannels
  let loopOut := takeLoop cfg maxMessageCount statuses
    { messages := s.outboundMessages, signals := s.signalMessages,
      fee := s.feeFactor, result := [] }
  let statuses1 := loopOut.1
  let acc := loopOut.2
  let result := sortByKey acc.result
  let retained := statuses1.filter fun x =>
    decide (x.state = .Suspended ∨ x.signals_exist = true ∨ x.first_index < x.last_index)
  let pruned := oldStatusesLen - retained.length
  let rotated := rotateLeftBy retained (result.length - pruned)
  (result,
    { s with
      outboundStatus := rotated
      outboundMessages := acc.messages
      signalMessages := acc.signals
      feeFactor := acc.fee })

/-- `on_queue_changed`: the congestion-controller callback invoked with a
peer's downstream queue depth (`fp.ready_pages`). -/
def onQueueChanged (cfg : Config) (s : XcmpState) (para : ParaId) (readyPages : Nat) :
    XcmpState :=
  let resumeThreshold := s.queueConfig.resume_threshold
  let suspendThreshold := s.queueConfig.suspend_threshold
  let suspendedChannels := s.inboundSuspended
  if para ∈ suspendedChannels ∧ readyPages ≤ resumeThreshold then
    match sendSignal cfg s para .Resume with
    | .error _ =>
        -- defensive: could not send resumption signal; channel remains suspended
        s
    | .ok s1 => { s1 with inboundSuspended := suspendedChannels.erase para }
  else if para ∉ suspendedChannels ∧ readyPages ≥ suspendThreshold then
    match sendSignal cfg s para .Suspend with
    | .error _ =>
        -- defensive: could not send suspension signal
        s
    | .ok s1 =>
        if suspendedChannels.card < cfg.maxInboundSuspended then
          { s1 with inboundSuspended := insert para suspendedChannels }
        else
          -- too many channels suspended; cannot suspend sibling (set not stored)
          s1
  else
    s

/-! ## Concrete configurations and states used by counterexamples and witnesses -/

/-- A small test configuration: one open channel to peer 5 with
`max_message_size = 100`, `max_total_size = 400`, transport `Ready 50 50`. -/
def cfgA : Config :=
  { maxPageSize := 100
    maxActiveOutboundChannels := 4
    maxInboundSuspended := 2
    getChannelInfo := fun p =>
      if p = 5 then some { max_message_size := 100, max_total_size := 400 } else none
    getChannelStatus := fun _ => .Ready 50 50
    feeStep := 2
    decayStep := 1/2
    minFeeFactor := 1 }

/-- A registry whose only record (peer 5) is suspended with a pending signal
and an empty page range. -/
def stateC3 : XcmpState :=
  { outboundStatus :=
      [{ recipient := 5, state := .Suspended, signals_exist := true,
         first_index := 0, last_index := 0 }]
    outboundMessages := fun _ _ => []
    signalMessages := fun p => if p = 5 then [0, 1] else []
    queueConfig := QueueConfigData.genesisDefault
    inboundSuspended := ∅
    feeFactor := fun _ => 1 }

/-- A registry whose only record (peer 5) has one active page, stored with the
`Signals` format header (byte 0), so that a `ConcatenatedVersionedXcm` write
hits the format-mismatch path. -/
def stateC2 : XcmpState :=
  { outboundStatus :=
      [{ recipient := 5, state := .Ok, signals_exist := false,
         first_index := 0, last_index := 1 }]
    outboundMessages := fun p i => if p = 5 ∧ i = 0 then [0, 9] else []
    signalMessages := fun _ => []
    queueConfig := QueueConfigData.genesisDefault
    inboundSuspended := ∅
    feeFactor := fun _ => 1 }

/-- `send_fragment` is `send_fragment_aux` with the intermediate
`last_page_size` projected away. -/
theorem sendFragment_eq_aux (cfg : Config) (s : XcmpState) (p : ParaId)
    (format : XcmpMessageFormat) (frag : List Byte) :
    sendFragment cfg s p format frag =
      (sendFragmentAux cfg s p format frag).map (fun t => (t.1, t.2.2)) := by
  unfold sendFragment
  cases sendFragmentAux cfg s p format frag with
  | error e => rfl
  | ok t => obtain ⟨n, lps, s'⟩ := t; rfl


/-- Projects the post-state out of a `send_fragment` result, with a fallback
for the error case (proof scaffolding, not part of the source). -/
def stateAfter (r : Except MessageSendError (Nat × XcmpState)) (fallback : XcmpState) :
    XcmpState :=
  match r with
  | .ok x => x.2
  | .error _ => fallback

/-- Projects the post-state out of a `send_fragment_aux` result, with a
fallback for the error case (proof scaffolding, not part of the source). -/
def auxStateAfter (r : Except MessageSendError (Nat × Nat × XcmpState))
    (fallback : XcmpState) : XcmpState :=
  match r with
  | .ok t => t.2.2
  | .error _ => fallback

/-- The fee-scenario configuration of spec section 8: `max_message_size = 1000`
(also the configured page size), `max_total_size = 4096`, peer 2000. -/
def cfg5 : Config :=
  { maxPageSize := 1000
    maxActiveOutboundChannels := 4
    maxInboundSuspended := 2
    getChannelInfo := fun p =>
      if p = 2000 then some { max_message_size := 1000, max_total_size := 4096 } else none
    getChannelStatus := fun _ => .Ready 2000 2000
    feeStep := 2
    decayStep := 1/2
    minFeeFactor := 1 }

/-- A 999-byte fragment: together with the 1-byte format header it fills a
complete 1000-byte page. -/
def frag5 : List Byte := List.replicate 999 7

/-- The states reached by the three sequential writes of the fee scenario. -/
def s5_0 : XcmpState := emptyState cfg5

def s5_1 : XcmpState :=
  stateAfter (sendFragment cfg5 s5_0 2000 .ConcatenatedVersionedXcm frag5) s5_0

def s5_2 : XcmpState :=
  stateAfter (sendFragment cfg5 s5_1 2000 .ConcatenatedVersionedXcm frag5) s5_1

def s5_3 : XcmpState :=
  stateAfter (sendFragment cfg5 s5_2 2000 .ConcatenatedVersionedXcm frag5) s5_2


/-- A state whose inbound-suspended set holds peer 5 (used to instantiate the
congestion-controller theorem). -/
def stateC9 : XcmpState :=
  { outboundStatus := []
    outboundMessages := fun _ _ => []
    signalMessages := fun _ => []
    queueConfig := QueueConfigData.genesisDefault
    inboundSuspended := {5}
    feeFactor := fun _ => 1 }


/-- The registry index invariant: every record's page range is well-formed. -/
def IndexInvariant (s : XcmpState) : Prop :=
  ∀ r ∈ s.outboundStatus, r.first_index ≤ r.last_index

/-- A transport that reports `Ready 10 0`: the current size limit admits a
signal page while the historical maximum does not. -/
def cfgC7 : Config :=
  { maxPageSize := 100
    maxActiveOutboundChannels := 4
    maxInboundSuspended := 2
    getChannelInfo := fun p =>
      if p = 5 then some { max_message_size := 100, max_total_size := 400 } else none
    getChannelStatus := fun _ => .Ready 10 0
    feeStep := 2
    decayStep := 1/2
    minFeeFactor := 1 }

/-- A registry whose only record (peer 5) is suspended with a pending
2-byte signal page. -/
def stateC7 : XcmpState :=
  { outboundStatus :=
      [{ recipient := 5, state := .Suspended, signals_exist := true,
         first_index := 0, last_index := 0 }]
    outboundMessages := fun _ _ => []
    signalMessages := fun p => if p = 5 then [0, 1] else []
    queueConfig := QueueConfigData.genesisDefault
    inboundSuspended := ∅
    feeFactor := fun _ => 1 }

/-- A transport that reports every channel `Closed`. -/
def cfgC8 : Config :=
  { maxPageSize := 100
    maxActiveOutboundChannels := 4
    maxInboundSuspended := 2
    getChannelInfo := fun p =>
      if p = 5 then some { max_message_size := 100, max_total_size := 400 } else none
    getChannelStatus := fun _ => .Closed
    feeStep := 2
    decayStep := 1/2
    minFeeFactor := 1 }

/-- A registry whose only record (peer 5) holds two data pages and a pending
signal. -/
def stateC8 : XcmpState :=
  { outboundStatus :=
      [{ recipient := 5, state := .Ok, signals_exist := true,
         first_index := 0, last_index := 2 }]
    outboundMessages := fun p i => if p = 5 ∧ i < 2 then [1, 9] else []
    signalMessages := fun p => if p = 5 then [0, 1] else []
    queueConfig := QueueConfigData.genesisDefault
    inboundSuspended := ∅
    feeFactor := fun _ => 1 }

/-! ## Helper lemmas -/

/-- In a list whose images under `f` are pairwise distinct, erasing the element
at position `idx` removes every element whose `f`-image matches that of the
element stored there. -/
theorem not_map_eq_of_mem_eraseIdx {α β : Type} (l : List α) (f : α → β) (idx : Nat)
    (hnodup : (l.map f).Nodup) (x : α) (hx : l[idx]? = some x) :
    ∀ y ∈ l.eraseIdx idx, f y ≠ f x := by
  intro y hy hfy
  rcases List.mem_eraseIdx_iff_getElem?.1 hy with ⟨i, hne, hi⟩
  have hidx : idx < l.length := (List.getElem?_eq_some_iff.1 hx).1
  have hilt : i < l.length := (List.getElem?_eq_some_iff.1 hi).1
  have h1 : (l.map f)[i]? = some (f y) := by
    rw [List.getElem?_map, hi]; rfl
  have h2 : (l.map f)[idx]? = some (f x) := by
    rw [List.getElem?_map, hx]; rfl
  have : i = idx := by
    apply List.getElem?_inj (by simpa using hilt) hnodup
    rw [h1, h2, hfy]
  exact hne this


/-- In the write phase of `send_fragment`, the stored fee factor for the
recipient changes exactly when the conservative occupancy estimate
`(number_of_pages - 1) * max_message_size + last_page_size` exceeds
`max_total_size / THRESHOLD_FACTOR` (given a positive stored factor and an
escalation step above one). -/
theorem sendFragmentCore_fee_iff (cfg : Config) (s : XcmpState) (p : ParaId)
    (format : XcmpMessageFormat) (frag : List Byte) (ci : ChannelInfo) (mms : Nat)
    (channels : List OutboundChannelDetails) (idx : Nat) (n lps : Nat) (s' : XcmpState)
    (hstep : 1 < cfg.feeStep) (hpos : 0 < s.feeFactor p)
    (hok : sendFragmentCore cfg s p format frag ci mms channels idx = .ok (n, lps, s')) :
    (s'.feeFactor p ≠ s.feeFactor p ↔
      (n - 1) * mms + lps > ci.max_total_size / THRESHOLD_FACTOR) := by
  simp only [sendFragmentCore] at hok
  split at hok
  · exact absurd hok (by simp)
  · rename_i n0 lps0 s0 heq
    have hf0 : s0.feeFactor = s.feeFactor := by
      split at heq
      · simp only [Except.ok.injEq, Prod.mk.injEq] at heq
        obtain ⟨-, -, hs0⟩ := heq
        rw [← hs0]
      · split_ifs at heq
        simp only [Except.ok.injEq, Prod.mk.injEq] at heq
        obtain ⟨-, -, hs0⟩ := heq
        rw [← hs0]
    split_ifs at hok with hthr
    · simp only [Except.ok.injEq, Prod.mk.injEq] at hok
      obtain ⟨hn, hlps, hs'⟩ := hok
      subst hn hlps
      have hfee' : s'.feeFactor p = s.feeFactor p * cfg.feeStep := by
        rw [← hs']
        simp [increaseFeeFactor, setFee, hf0]
      refine iff_of_true ?_ hthr
      rw [hfee']
      intro hcontra
      rcases mul_right_eq_self₀.mp hcontra with h1 | h0
      · exact absurd h1 (by intro h; rw [h] at hstep; exact lt_irrefl 1 hstep)
      · exact absurd h0 (ne_of_gt hpos)
    · simp only [Except.ok.injEq, Prod.mk.injEq] at hok
      obtain ⟨hn, hlps, hs'⟩ := hok
      subst hn hlps
      refine iff_of_false ?_ hthr
      rw [← hs', hf0]
      simp

/-- Lifting of `sendFragmentCore_fee_iff` to `send_fragment_aux`. -/
theorem sendFragmentAux_fee_iff (cfg : Config) (s : XcmpState) (p : ParaId)
    (format : XcmpMessageFormat) (frag : List Byte) (ci : ChannelInfo)
    (n lps : Nat) (s' : XcmpState)
    (hci : cfg.getChannelInfo p = some ci)
    (hstep : 1 < cfg.feeStep) (hpos : 0 < s.feeFactor p)
    (hok : sendFragmentAux cfg s p format frag = .ok (n, lps, s')) :
    (s'.feeFactor p ≠ s.feeFactor p ↔
      (n - 1) * min ci.max_message_size cfg.maxPageSize + lps >
        ci.max_total_size / THRESHOLD_FACTOR) := by
  simp only [sendFragmentAux, hci] at hok
  split_ifs at hok with hsz <;>
    split at hok <;>
      first
        | exact sendFragmentCore_fee_iff cfg s p format frag ci _ _ _ n lps s' hstep hpos hok
        | exact Except.noConfusion hok

/-! ## C4: queue-config updates -/

/-- C4: a queue-config update (suspend, drop or resume threshold) succeeds,
returning the state whose stored config is exactly the one-field update, if
and only if the resulting values satisfy
`0 < resume_threshold < suspend_threshold <= drop_threshold`; otherwise it is
rejected with `BadQueueConfig` (the stored config is unchanged, since the
error case returns no state). -/
theorem queueConfig_update_valid_iff (s : XcmpState) (n : Nat) :
    (updateSuspendThreshold s n =
        .ok { s with queueConfig := { s.queueConfig with suspend_threshold := n } } ↔
      0 < s.queueConfig.resume_threshold ∧ s.queueConfig.resume_threshold < n ∧
        n ≤ s.queueConfig.drop_threshold) ∧
    (updateSuspendThreshold s n = .error .BadQueueConfig ↔
      ¬ (0 < s.queueConfig.resume_threshold ∧ s.queueConfig.resume_threshold < n ∧
        n ≤ s.queueConfig.drop_threshold)) ∧
    (updateDropThreshold s n =
        .ok { s with queueConfig := { s.queueConfig with drop_threshold := n } } ↔
      0 < s.queueConfig.resume_threshold ∧
        s.queueConfig.resume_threshold < s.queueConfig.suspend_threshold ∧
        s.queueConfig.suspend_threshold ≤ n) ∧
    (updateDropThreshold s n = .error .BadQueueConfig ↔
      ¬ (0 < s.queueConfig.resume_threshold ∧
        s.queueConfig.resume_threshold < s.queueConfig.suspend_threshold ∧
        s.queueConfig.suspend_threshold ≤ n)) ∧
    (updateResumeThreshold s n =
        .ok { s with queueConfig := { s.queueConfig with resume_threshold := n } } ↔
      0 < n ∧ n < s.queueConfig.suspend_threshold ∧
        s.queueConfig.suspend_threshold ≤ s.queueConfig.drop_threshold) ∧
    (updateResumeThreshold s n = .error .BadQueueConfig ↔
      ¬ (0 < n ∧ n < s.queueConfig.suspend_threshold ∧
        s.queueConfig.suspend_threshold ≤ s.queueConfig.drop_threshold)) := by
  refine ⟨?_, ?_, ?_, ?_, ?_, ?_⟩ <;>
    simp only [updateSuspendThreshold, updateDropThreshold, updateResumeThreshold,
      QueueConfigData.validate] <;>
    split_ifs with h <;>
    simp_all <;>
    omega

/-! ## C3: resume_channel cleanup-on-empty -/

/-- C3 counterexample: peer 5's record is `Suspended` with a pending signal
(`signals_exist = true`) and an empty page range; the claim says such a record
must be kept and set to `Ok`, but `resume_channel` removes it from the registry
entirely. -/
theorem resumeChannel_pending_signal_cex :
    stateC3.outboundStatus =
      [{ recipient := 5, state := .Suspended, signals_exist := true,
         first_index := 0, last_index := 0 }] ∧
    (resumeChannel stateC3 5).outboundStatus = [] := by
  exact ⟨rfl, rfl⟩

/-- C3 (amended): `resume_channel` on a present record (expected `Suspended`)
removes it from the registry exactly when its page range is empty
(`first_index = last_index`), regardless of any pending signal; otherwise the
record is kept with its state set to `Ok`. -/
theorem resumeChannel_removes_iff_empty (s : XcmpState) (p : ParaId) (idx : Nat)
    (r : OutboundChannelDetails)
    (hfind : s.outboundStatus.findIdx? (fun c => c.recipient = p) = some idx)
    (hget : s.outboundStatus[idx]? = some r)
    (hrp : r.recipient = p)
    (hsusp : r.state = .Suspended)
    (hnodup : (s.outboundStatus.map (fun c => c.recipient)).Nodup) :
    (r.first_index = r.last_index →
      (resumeChannel s p).outboundStatus = s.outboundStatus.eraseIdx idx ∧
      ∀ q ∈ (resumeChannel s p).outboundStatus, q.recipient ≠ p) ∧
    (r.first_index ≠ r.last_index →
      (resumeChannel s p).outboundStatus =
        s.outboundStatus.set idx { r with state := .Ok }) := by
  have hgetD : s.outboundStatus.getD idx (OutboundChannelDetails.new p) = r := by
    simp [List.getD_eq_getElem?_getD, hget]
  constructor
  · intro heq
    have hres : (resumeChannel s p).outboundStatus = s.outboundStatus.eraseIdx idx := by
      simp only [resumeChannel, hfind, hgetD, if_pos heq]
    refine ⟨hres, ?_⟩
    intro q hq
    rw [hres] at hq
    have := not_map_eq_of_mem_eraseIdx s.outboundStatus (fun c => c.recipient) idx hnodup r
      hget q hq
    simpa [hrp] using this
  · intro hne
    simp only [resumeChannel, hfind, hgetD, if_neg hne]

/-- Closed instantiation of the amended C3 theorem at `stateC3`. -/
theorem resumeChannel_removes_iff_empty_witness :
    ((0 : Nat) = 0 →
      (resumeChannel stateC3 5).outboundStatus = stateC3.outboundStatus.eraseIdx 0 ∧
      ∀ q ∈ (resumeChannel stateC3 5).outboundStatus, q.recipient ≠ 5) ∧
    ((0 : Nat) ≠ 0 →
      (resumeChannel stateC3 5).outboundStatus =
        stateC3.outboundStatus.set 0
          { recipient := 5, state := .Ok, signals_exist := true,
            first_index := 0, last_index := 0 }) := by
  exact resumeChannel_removes_iff_empty stateC3 5 0
    { recipient := 5, state := .Suspended, signals_exist := true,
      first_index := 0, last_index := 0 }
    (by decide) (by decide) rfl rfl (by decide)

/-! ## C2: format mismatch on the active last page -/

/-- C2 counterexample: peer 5 has an active last page whose stored header is
the `Signals` format; writing a `ConcatenatedVersionedXcm` fragment is claimed
to be dropped with the page range unchanged and no new page allocated, but
`send_fragment` returns `Ok(2)`, advances `last_index` from 1 to 2 and stores
the fragment in a freshly allocated page at index 1. -/
theorem sendFragment_mismatch_cex :
    XcmpMessageFormat.decode (stateC2.outboundMessages 5 0) ≠
      some XcmpMessageFormat.ConcatenatedVersionedXcm ∧
    (sendFragment cfgA stateC2 5 .ConcatenatedVersionedXcm [7]).map
        (fun x => (x.1, x.2.outboundStatus, x.2.outboundMessages 5 1)) =
      .ok (2,
        [{ recipient := 5, state := .Ok, signals_exist := false,
           first_index := 0, last_index := 2 }],
        [1, 7]) := by
  exact ⟨by decide, rfl⟩

/-- C2 (amended): when the active last page's stored format header does not
decode to the requested format, the mismatch is defensively logged and the
fragment is not appended to the existing page (which is left unchanged);
instead a fresh page holding the requested format header followed by the
fragment is allocated at `last_index`, and `last_index` is advanced. -/
theorem sendFragment_mismatch_new_page (cfg : Config) (s : XcmpState) (p : ParaId)
    (format : XcmpMessageFormat) (frag : List Byte) (ci : ChannelInfo) (idx : Nat)
    (r : OutboundChannelDetails)
    (hci : cfg.getChannelInfo p = some ci)
    (hsize : frag.length + format.encode.length ≤ min ci.max_message_size cfg.maxPageSize)
    (hfind : s.outboundStatus.findIdx? (fun c => c.recipient = p) = some idx)
    (hget : s.outboundStatus[idx]? = some r)
    (hactive : r.first_index < r.last_index)
    (hmismatch : XcmpMessageFormat.decode (s.outboundMessages p (r.last_index - 1)) ≠
      some format) :
    ∃ n s', sendFragment cfg s p format frag = .ok (n, s') ∧
      n = r.last_index + 1 - r.first_index ∧
      s'.outboundMessages p r.last_index = format.encode ++ frag ∧
      s'.outboundMessages p (r.last_index - 1) = s.outboundMessages p (r.last_index - 1) ∧
      s'.outboundStatus = s.outboundStatus.set idx { r with last_index := r.last_index + 1 } := by
  have hgetD : s.outboundStatus[idx]?.getD (OutboundChannelDetails.new p) = r := by
    rw [hget]; rfl
  have hsz : ¬ (frag.length + format.encode.length > min ci.max_message_size cfg.maxPageSize) :=
    not_lt.mpr hsize
  have hnewlen : ¬ ((format.encode ++ frag).length > cfg.maxPageSize) := by
    rw [List.length_append]
    have := min_le_right ci.max_message_size cfg.maxPageSize
    omega
  have hlast : ¬ (r.last_index - 1 = r.last_index) := by omega
  rw [sendFragment_eq_aux]
  simp only [sendFragmentAux, hci, hfind]
  rw [if_neg hsz]
  simp only [sendFragmentCore, List.getD_eq_getElem?_getD, hgetD, if_pos hactive,
    if_neg hmismatch, if_neg hnewlen]
  split_ifs with hfee
  · refine ⟨_, _, rfl, rfl, ?_, ?_, ?_⟩
    · simp [increaseFeeFactor, setPage]
    · simp [increaseFeeFactor, setPage, hlast]
    · simp [increaseFeeFactor]
  · refine ⟨_, _, rfl, rfl, ?_, ?_, ?_⟩
    · simp [setPage]
    · simp [setPage, hlast]
    · rfl

/-- Closed instantiation of the amended C2 theorem at `stateC2`. -/
theorem sendFragment_mismatch_new_page_witness :
    ∃ n s', sendFragment cfgA stateC2 5 .ConcatenatedVersionedXcm [7] = .ok (n, s') ∧
      n = 1 + 1 - 0 ∧
      s'.outboundMessages 5 1 =
        XcmpMessageFormat.ConcatenatedVersionedXcm.encode ++ [7] ∧
      s'.outboundMessages 5 (1 - 1) = stateC2.outboundMessages 5 (1 - 1) ∧
      s'.outboundStatus = stateC2.outboundStatus.set 0
        { recipient := 5, state := .Ok, signals_exist := false,
          first_index := 0, last_index := 1 + 1 } := by
  exact sendFragment_mismatch_new_page cfgA stateC2 5 .ConcatenatedVersionedXcm [7]
    { max_message_size := 100, max_total_size := 400 } 0
    { recipient := 5, state := .Ok, signals_exist := false,
      first_index := 0, last_index := 1 }
    rfl (by decide) (by decide) (by decide) (by decide) (by decide)

/-! ## C1: no TooBig for fitting fragments -/

/-- The write phase of `send_fragment` cannot fail with `TooBig` when a fresh
page holding the format header and the fragment fits the hard page-size
limit. -/
theorem sendFragmentCore_no_tooBig (cfg : Config) (s : XcmpState) (p : ParaId)
    (format : XcmpMessageFormat) (frag : List Byte) (ci : ChannelInfo) (mms : Nat)
    (channels : List OutboundChannelDetails) (idx : Nat)
    (hnew : (format.encode ++ frag).length ≤ cfg.maxPageSize) :
    sendFragmentCore cfg s p format frag ci mms channels idx ≠ .error .TooBig := by
  intro h
  simp only [sendFragmentCore] at h
  rw [if_neg (not_lt.mpr hnew)] at h
  split at h
  · rename_i e heq
    split at heq
    · simp_all
    · simp_all
  · split_ifs at h

/-- C1: for a peer with an open channel, if the encoded fragment size plus the
format-header size is at most `max_message_size` (the minimum of the
transport-reported max message size and the configured `MaxPageSize`), then
`send_fragment` never returns the `TooBig` error. -/
theorem sendFragment_no_tooBig (cfg : Config) (s : XcmpState) (p : ParaId)
    (format : XcmpMessageFormat) (frag : List Byte) (ci : ChannelInfo)
    (hci : cfg.getChannelInfo p = some ci)
    (hsize : frag.length + format.encode.length ≤ min ci.max_message_size cfg.maxPageSize) :
    sendFragment cfg s p format frag ≠ .error .TooBig := by
  have hsz : ¬ (frag.length + format.encode.length > min ci.max_message_size cfg.maxPageSize) :=
    not_lt.mpr hsize
  have hnew : (format.encode ++ frag).length ≤ cfg.maxPageSize := by
    rw [List.length_append]
    have := min_le_right ci.max_message_size cfg.maxPageSize
    omega
  rw [sendFragment_eq_aux]
  have haux : sendFragmentAux cfg s p format frag ≠ .error .TooBig := by
    simp only [sendFragmentAux, hci]
    rw [if_neg hsz]
    cases hfind : s.outboundStatus.findIdx? (fun c => c.recipient = p) with
    | some idx =>
        exact sendFragmentCore_no_tooBig cfg s p format frag ci
          (min ci.max_message_size cfg.maxPageSize) s.outboundStatus idx hnew
    | none =>
        split_ifs with hlen
        · exact sendFragmentCore_no_tooBig cfg s p format frag ci
            (min ci.max_message_size cfg.maxPageSize)
            (s.outboundStatus ++ [OutboundChannelDetails.new p]) s.outboundStatus.length hnew
        · simp
  intro h
  apply haux
  cases hc : sendFragmentAux cfg s p format frag with
  | error e => rw [hc] at h; simp [Except.map] at h; rw [h]
  | ok t => rw [hc] at h; obtain ⟨n, lps, s'⟩ := t; simp [Except.map] at h

/-- Closed instantiation of the C1 theorem: a 2-byte fragment on the open
channel to peer 5 is never rejected as too big. -/
theorem sendFragment_no_tooBig_witness :
    sendFragment cfgA (emptyState cfgA) 5 .ConcatenatedVersionedXcm [7, 8] ≠
      .error .TooBig :=
  sendFragment_no_tooBig cfgA (emptyState cfgA) 5 .ConcatenatedVersionedXcm [7, 8]
    { max_message_size := 100, max_total_size := 400 } rfl (by decide)


/-! ## C5: fee escalation -/

/-- C5: in the concrete scenario (`max_message_size = 1000`,
`max_total_size = 4096`, `THRESHOLD_FACTOR = 2`, threshold 2048), three
sequential writes that each fill a complete 1000-byte page produce 3 queued
pages with conservative occupancy estimates 1000, 2000 and 3000 bytes; the
stored fee factor changes only on the third write — the one whose estimate
first strictly exceeds 2048 — where it is multiplied once by the escalation
step; and in general a write escalates the fee factor if and only if
`(number_of_pages - 1) * max_message_size + last_page_size` strictly exceeds
`max_total_size / THRESHOLD_FACTOR`. -/
theorem fee_escalation_scenario :
    ((sendFragment cfg5 s5_0 2000 .ConcatenatedVersionedXcm frag5).map Prod.fst = .ok 1 ∧
      (sendFragment cfg5 s5_1 2000 .ConcatenatedVersionedXcm frag5).map Prod.fst = .ok 2 ∧
      (sendFragment cfg5 s5_2 2000 .ConcatenatedVersionedXcm frag5).map Prod.fst = .ok 3) ∧
    ((sendFragmentAux cfg5 s5_0 2000 .ConcatenatedVersionedXcm frag5).map
        (fun t => (t.1 - 1) * 1000 + t.2.1) = .ok 1000 ∧
      (sendFragmentAux cfg5 s5_1 2000 .ConcatenatedVersionedXcm frag5).map
        (fun t => (t.1 - 1) * 1000 + t.2.1) = .ok 2000 ∧
      (sendFragmentAux cfg5 s5_2 2000 .ConcatenatedVersionedXcm frag5).map
        (fun t => (t.1 - 1) * 1000 + t.2.1) = .ok 3000) ∧
    (4096 / THRESHOLD_FACTOR = 2048 ∧ ¬ 1000 > 2048 ∧ ¬ 2000 > 2048 ∧ 3000 > 2048) ∧
    (s5_1.feeFactor 2000 = cfg5.minFeeFactor ∧ s5_2.feeFactor 2000 = cfg5.minFeeFactor ∧
      s5_3.feeFactor 2000 = cfg5.minFeeFactor * cfg5.feeStep) ∧
    (∀ (cfg : Config) (s : XcmpState) (p : ParaId) (format : XcmpMessageFormat)
        (frag : List Byte) (ci : ChannelInfo) (n lps : Nat) (s' : XcmpState),
      cfg.getChannelInfo p = some ci → 1 < cfg.feeStep → 0 < s.feeFactor p →
      sendFragmentAux cfg s p format frag = .ok (n, lps, s') →
      (s'.feeFactor p ≠ s.feeFactor p ↔
        (n - 1) * min ci.max_message_size cfg.maxPageSize + lps >
          ci.max_total_size / THRESHOLD_FACTOR)) := by
  refine ⟨⟨?_, ?_, ?_⟩, ⟨?_, ?_, ?_⟩, ⟨by decide, by decide, by decide, by decide⟩,
    ⟨?_, ?_, ?_⟩,
    fun cfg s p format frag ci n lps s' hci hstep hpos hok =>
      sendFragmentAux_fee_iff cfg s p format frag ci n lps s' hci hstep hpos hok⟩ <;>
    rfl

/-- Closed instantiation of the general escalation criterion of C5: a first
small write on an empty queue (estimate 2 bytes, threshold 200) does not
change the fee factor. -/
theorem fee_escalation_scenario_witness :
    ((auxStateAfter (sendFragmentAux cfgA (emptyState cfgA) 5 .ConcatenatedVersionedXcm [7])
        (emptyState cfgA)).feeFactor 5 ≠ (emptyState cfgA).feeFactor 5 ↔
      (1 - 1) * min 100 100 + 2 > 400 / THRESHOLD_FACTOR) :=
  fee_escalation_scenario.2.2.2.2 cfgA (emptyState cfgA) 5 .ConcatenatedVersionedXcm [7]
    { max_message_size := 100, max_total_size := 400 } 1 2
    (auxStateAfter (sendFragmentAux cfgA (emptyState cfgA) 5 .ConcatenatedVersionedXcm [7])
      (emptyState cfgA))
    rfl (by norm_num [cfgA]) (by norm_num [emptyState, cfgA]) rfl


/-! ## C6: round trip through writer and scheduler -/

/-- `send_fragment` on the genesis state creates the peer's record with page
range `[0, 1)` and stores the single page `format.encode ++ frag`. -/
theorem sendFragment_empty (cfg : Config) (p : ParaId) (format : XcmpMessageFormat)
    (frag : List Byte) (ci : ChannelInfo)
    (hci : cfg.getChannelInfo p = some ci)
    (hsize : frag.length + format.encode.length ≤ min ci.max_message_size cfg.maxPageSize)
    (hcap : 0 < cfg.maxActiveOutboundChannels) :
    ∃ s1, sendFragment cfg (emptyState cfg) p format frag = .ok (1, s1) ∧
      s1.outboundStatus =
        [{ recipient := p, state := .Ok, signals_exist := false,
           first_index := 0, last_index := 1 }] ∧
      s1.outboundMessages p 0 = format.encode ++ frag := by
  have hsz : ¬ (frag.length + format.encode.length > min ci.max_message_size cfg.maxPageSize) :=
    not_lt.mpr hsize
  have hnewlen : ¬ ((format.encode ++ frag).length > cfg.maxPageSize) := by
    rw [List.length_append]
    have := min_le_right ci.max_message_size cfg.maxPageSize
    omega
  rw [sendFragment_eq_aux]
  simp only [sendFragmentAux, emptyState, List.findIdx?, List.length_nil, if_pos hcap, hci]
  rw [if_neg hsz]
  simp only [sendFragmentCore, List.nil_append, List.getD, OutboundChannelDetails.new,
    if_neg hnewlen]
  norm_num [setPage]
  split_ifs with hfee
  · refine ⟨_, rfl, by norm_num [increaseFeeFactor], ?_⟩
    simp [increaseFeeFactor, setPage]
  · exact ⟨_, rfl, by norm_num, by simp [setPage]⟩

/-- The scheduler on a registry holding exactly one record, `Ok` with a single
page that fits both size limits, emits exactly that page. -/
theorem take_single (cfg : Config) (s1 : XcmpState) (p : ParaId) (page : List Byte)
    (nNow nEver maxCh : Nat)
    (hst : s1.outboundStatus =
      [{ recipient := p, state := .Ok, signals_exist := false,
         first_index := 0, last_index := 1 }])
    (hpage : s1.outboundMessages p 0 = page)
    (hstatus : cfg.getChannelStatus p = .Ready nNow nEver)
    (hfit : page.length < nNow) (hever : page.length ≤ nEver) (hch : 1 ≤ maxCh) :
    (takeOutboundMessages cfg s1 maxCh).1 = [(p, page)] := by
  have hever' : ¬ (page.length > nEver) := not_lt.mpr hever
  have hmin : min 1 maxCh = 1 := by omega
  simp only [takeOutboundMessages, hst, List.length_singleton, hmin, takeLoop, hstatus]
  norm_num [processReady, hpage, hfit, hever', sortByKey, insertByKey]
  simp [hever', sortByKey, insertByKey]

/-- C6: writing fragment `f` to a peer whose queue is empty (genesis state,
no pending signal) and then extracting with sufficient budget over a `Ready`
channel of sufficient size yields exactly one entry for the peer, whose bytes
are the format header followed by the encoded fragment. -/
theorem sendFragment_take_roundTrip (cfg : Config) (p : ParaId)
    (format : XcmpMessageFormat) (frag : List Byte) (ci : ChannelInfo)
    (nNow nEver maxCh : Nat)
    (hci : cfg.getChannelInfo p = some ci)
    (hsize : frag.length + format.encode.length ≤ min ci.max_message_size cfg.maxPageSize)
    (hcap : 0 < cfg.maxActiveOutboundChannels)
    (hstatus : cfg.getChannelStatus p = .Ready nNow nEver)
    (hfit : (format.encode ++ frag).length < nNow)
    (hever : (format.encode ++ frag).length ≤ nEver)
    (hch : 1 ≤ maxCh) :
    ∃ s1, sendFragment cfg (emptyState cfg) p format frag = .ok (1, s1) ∧
      (takeOutboundMessages cfg s1 maxCh).1 = [(p, format.encode ++ frag)] := by
  obtain ⟨s1, hsend, hst, hpage⟩ := sendFragment_empty cfg p format frag ci hci hsize hcap
  exact ⟨s1, hsend,
    take_single cfg s1 p (format.encode ++ frag) nNow nEver maxCh hst hpage hstatus hfit
      hever hch⟩

/-- Closed instantiation of the C6 round trip. -/
theorem sendFragment_take_roundTrip_witness :
    ∃ s1, sendFragment cfgA (emptyState cfgA) 5 .ConcatenatedVersionedXcm [7, 8] =
        .ok (1, s1) ∧
      (takeOutboundMessages cfgA s1 3).1 =
        [(5, XcmpMessageFormat.ConcatenatedVersionedXcm.encode ++ [7, 8])] :=
  sendFragment_take_roundTrip cfgA 5 .ConcatenatedVersionedXcm [7, 8]
    { max_message_size := 100, max_total_size := 400 } 50 50 3
    rfl (by decide) (by decide) rfl (by decide) (by decide) (by decide)


/-! ## C9: inbound congestion controller -/

/-- `send_signal` never touches the inbound-suspended set. -/
theorem sendSignal_inboundSuspended (cfg : Config) (s : XcmpState) (dest : ParaId)
    (signal : ChannelSignal) (s1 : XcmpState)
    (h : sendSignal cfg s dest signal = .ok s1) :
    s1.inboundSuspended = s.inboundSuspended := by
  simp only [sendSignal] at h
  split at h <;> split_ifs at h <;>
    (simp only [Except.ok.injEq] at h; rw [← h])

/-- C9: the queue-depth callback. If the peer is in the inbound-suspended set
and the depth is at or below the resume threshold, a Resume signal is
attempted and the peer is removed from the set exactly when the signal send
succeeds (on failure the set is unchanged). If the peer is not in the set and
the depth is at or above the suspend threshold, a Suspend signal is attempted
and the peer is inserted exactly when the send succeeds and the set is below
capacity (a capacity failure leaves the set unchanged, merely logged). In all
other cases the set is unchanged. -/
theorem onQueueChanged_spec (cfg : Config) (s : XcmpState) (para : ParaId) (rp : Nat) :
    (para ∈ s.inboundSuspended → rp ≤ s.queueConfig.resume_threshold →
      ((∃ s1, sendSignal cfg s para .Resume = .ok s1 ∧
          (onQueueChanged cfg s para rp).inboundSuspended =
            s.inboundSuspended.erase para) ∨
        (∃ err, sendSignal cfg s para .Resume = .error err ∧
          (onQueueChanged cfg s para rp).inboundSuspended = s.inboundSuspended))) ∧
    (para ∉ s.inboundSuspended → s.queueConfig.suspend_threshold ≤ rp →
      ((∃ s1, sendSignal cfg s para .Suspend = .ok s1 ∧
          s.inboundSuspended.card < cfg.maxInboundSuspended ∧
          (onQueueChanged cfg s para rp).inboundSuspended =
            insert para s.inboundSuspended) ∨
        (∃ s1, sendSignal cfg s para .Suspend = .ok s1 ∧
          ¬ s.inboundSuspended.card < cfg.maxInboundSuspended ∧
          (onQueueChanged cfg s para rp).inboundSuspended = s.inboundSuspended) ∨
        (∃ err, sendSignal cfg s para .Suspend = .error err ∧
          (onQueueChanged cfg s para rp).inboundSuspended = s.inboundSuspended))) ∧
    (para ∈ s.inboundSuspended → ¬ rp ≤ s.queueConfig.resume_threshold →
      (onQueueChanged cfg s para rp).inboundSuspended = s.inboundSuspended) ∧
    (para ∉ s.inboundSuspended → ¬ s.queueConfig.suspend_threshold ≤ rp →
      (onQueueChanged cfg s para rp).inboundSuspended = s.inboundSuspended) := by
  refine ⟨?_, ?_, ?_, ?_⟩
  · intro hmem hrp
    simp only [onQueueChanged, if_pos (And.intro hmem hrp)]
    cases hsig : sendSignal cfg s para .Resume with
    | ok s1 => exact Or.inl ⟨s1, rfl, rfl⟩
    | error err => exact Or.inr ⟨err, rfl, rfl⟩
  · intro hmem hrp
    have hc1 : ¬ (para ∈ s.inboundSuspended ∧ rp ≤ s.queueConfig.resume_threshold) := by
      intro h
      exact hmem h.1
    simp only [onQueueChanged, if_neg hc1, if_pos (And.intro hmem hrp)]
    cases hsig : sendSignal cfg s para .Suspend with
    | ok s1 =>
        by_cases hcap : s.inboundSuspended.card < cfg.maxInboundSuspended
        · exact Or.inl ⟨s1, rfl, hcap, by simp [hcap]⟩
        · refine Or.inr (Or.inl ⟨s1, rfl, hcap, ?_⟩)
          simp only [hcap, if_false]
          exact sendSignal_inboundSuspended cfg s para .Suspend s1 hsig
    | error err => exact Or.inr (Or.inr ⟨err, rfl, rfl⟩)
  · intro hmem hrp
    have hc1 : ¬ (para ∈ s.inboundSuspended ∧ rp ≤ s.queueConfig.resume_threshold) := by
      intro h
      exact hrp h.2
    have hc2 : ¬ (para ∉ s.inboundSuspended ∧ s.queueConfig.suspend_threshold ≤ rp) := by
      intro h
      exact h.1 hmem
    simp only [onQueueChanged, if_neg hc1, if_neg hc2]
  · intro hmem hrp
    have hc1 : ¬ (para ∈ s.inboundSuspended ∧ rp ≤ s.queueConfig.resume_threshold) := by
      intro h
      exact hmem h.1
    have hc2 : ¬ (para ∉ s.inboundSuspended ∧ s.queueConfig.suspend_threshold ≤ rp) := by
      intro h
      exact hrp h.2
    simp only [onQueueChanged, if_neg hc1, if_neg hc2]

/-- Closed instantiation of C9 at a peer present in the suspended set with
depth 0 (resume-eligible), and at an absent peer with a mid-range depth
(neither branch). -/
theorem onQueueChanged_spec_witness :
    ((∃ s1, sendSignal cfgA stateC9 5 .Resume = .ok s1 ∧
        (onQueueChanged cfgA stateC9 5 0).inboundSuspended =
          stateC9.inboundSuspended.erase 5) ∨
      (∃ err, sendSignal cfgA stateC9 5 .Resume = .error err ∧
        (onQueueChanged cfgA stateC9 5 0).inboundSuspended = stateC9.inboundSuspended)) ∧
    (onQueueChanged cfgA stateC9 7 10).inboundSuspended = stateC9.inboundSuspended :=
  ⟨(onQueueChanged_spec cfgA stateC9 5 0).1 (by decide) (by decide),
    (onQueueChanged_spec cfgA stateC9 7 10).2.2.2 (by decide) (by decide)⟩


/-! ## Lemmas on the extraction scheduler's loop -/

/-- One `Ready` iteration keeps the record's recipient. -/
theorem processReady_recipient (cfg : Config) (acc : TakeAcc) (st : OutboundChannelDetails)
    (n e : Nat) :
    ((processReady cfg acc st n e).2).recipient = st.recipient := by
  simp only [processReady]
  split <;> rfl

/-- One `Ready` iteration leaves every other peer's signal entry unchanged. -/
theorem processReady_signals_other (cfg : Config) (acc : TakeAcc)
    (st : OutboundChannelDetails) (n e : Nat) (q : ParaId) (hq : q ≠ st.recipient) :
    (processReady cfg acc st n e).1.signals q = acc.signals q := by
  unfold processReady
  by_cases h1 : st.signals_exist
  · by_cases h2 : (acc.signals st.recipient).length < n
    · simp [h1, h2, setSignal, hq]
    · simp [h1, h2]
  · by_cases h3 : st.state = .Suspended
    · simp [h1, h3]
    · by_cases h4 : st.first_index < st.last_index
      · by_cases h5 : (acc.messages st.recipient st.first_index).length < n
        · simp [h1, h3, h4, h5, setSignal, hq]
        · simp [h1, h3, h4, h5]
      · simp [h1, h3, h4]

/-- One `Ready` iteration leaves every other peer's pages unchanged. -/
theorem processReady_messages_other (cfg : Config) (acc : TakeAcc)
    (st : OutboundChannelDetails) (n e : Nat) (q : ParaId) (i : Nat)
    (hq : q ≠ st.recipient) :
    (processReady cfg acc st n e).1.messages q i = acc.messages q i := by
  unfold processReady
  by_cases h1 : st.signals_exist
  · by_cases h2 : (acc.signals st.recipient).length < n
    · simp [h1, h2]
    · simp [h1, h2]
  · by_cases h3 : st.state = .Suspended
    · simp [h1, h3]
    · by_cases h4 : st.first_index < st.last_index
      · by_cases h5 : (acc.messages st.recipient st.first_index).length < n
        · simp [h1, h3, h4, h5, setPage, hq]
        · simp [h1, h3, h4, h5]
      · simp [h1, h3, h4]

/-- One `Ready` iteration either leaves the result untouched or appends one
entry for the record's own recipient, and an entry can only be appended when
the record has a pending signal or is not suspended. -/
theorem processReady_result (cfg : Config) (acc : TakeAcc) (st : OutboundChannelDetails)
    (n e : Nat) :
    (processReady cfg acc st n e).1.result = acc.result ∨
      (∃ pg, (processReady cfg acc st n e).1.result = acc.result ++ [(st.recipient, pg)] ∧
        (st.signals_exist = true ∨ st.state ≠ .Suspended)) := by
  unfold processReady
  by_cases h1 : st.signals_exist
  · by_cases h2 : (acc.signals st.recipient).length < n
    · by_cases h6 : (acc.signals st.recipient).length > e
      · simp [h1, h2, h6]
      · exact Or.inr ⟨acc.signals st.recipient, by simp [h1, h2, h6], Or.inl h1⟩
    · simp [h1, h2]
  · by_cases h3 : st.state = .Suspended
    · simp [h1, h3]
    · by_cases h4 : st.first_index < st.last_index
      · by_cases h5 : (acc.messages st.recipient st.first_index).length < n
        · by_cases h6 : (acc.messages st.recipient st.first_index).length > e
          · simp [h1, h3, h4, h5, h6]
          · exact Or.inr ⟨acc.messages st.recipient st.first_index,
              by simp [h1, h3, h4, h5, h6], Or.inr h3⟩
        · simp [h1, h3, h4, h5]
      · simp [h1, h3, h4]

/-- One `Ready` iteration grows the result by at most one entry. -/
theorem processReady_result_length (cfg : Config) (acc : TakeAcc)
    (st : OutboundChannelDetails) (n e : Nat) :
    (processReady cfg acc st n e).1.result.length ≤ acc.result.length + 1 := by
  rcases processReady_result cfg acc st n e with h | ⟨pg, h, -⟩ <;> simp [h]

/-- One `Ready` iteration preserves the index invariant of the record. -/
theorem processReady_invariant (cfg : Config) (acc : TakeAcc)
    (st : OutboundChannelDetails) (n e : Nat)
    (hinv : st.first_index ≤ st.last_index) :
    ((processReady cfg acc st n e).2).first_index ≤
      ((processReady cfg acc st n e).2).last_index := by
  unfold processReady
  by_cases h1 : st.signals_exist
  · by_cases h2 : (acc.signals st.recipient).length < n
    · by_cases h7 : st.first_index = st.last_index
      · simp [h1, h2, h7]
      · simp [h1, h2, h7, hinv]
    · simp [h1, h2, hinv]
  · by_cases h3 : st.state = .Suspended
    · simp [h1, h3, hinv]
    · by_cases h4 : st.first_index < st.last_index
      · by_cases h5 : (acc.messages st.recipient st.first_index).length < n
        · by_cases h7 : st.first_index + 1 = st.last_index
          · simp [h1, h3, h4, h5, h7]
          · simp [h1, h3, h4, h5, h7]
            omega
        · simp [h1, h3, h4, h5, hinv]
      · simp [h1, h3, h4, hinv]

/-- The loop preserves the list of recipients of the registry snapshot. -/
theorem takeLoop_recipients (cfg : Config) (mc : Nat) (l : List OutboundChannelDetails)
    (acc : TakeAcc) :
    (takeLoop cfg mc l acc).1.map (fun c => c.recipient) =
      l.map (fun c => c.recipient) := by
  induction l generalizing acc with
  | nil => rfl
  | cons st rest ih =>
      simp only [takeLoop]
      cases hs : cfg.getChannelStatus st.recipient with
      | Closed => simp [ih, OutboundChannelDetails.new]
      | Full => simp [ih]
      | Ready a b =>
          by_cases hb : acc.result.length = mc
          · simp [hb]
          · simp [hb, ih, processReady_recipient]

/-- The already-accumulated result is a prefix of the loop's final result. -/
theorem takeLoop_result_prefix (cfg : Config) (mc : Nat)
    (l : List OutboundChannelDetails) (acc : TakeAcc) :
    acc.result <+: (takeLoop cfg mc l acc).2.result := by
  induction l generalizing acc with
  | nil => exact List.prefix_refl _
  | cons st rest ih =>
      simp only [takeLoop]
      cases hs : cfg.getChannelStatus st.recipient with
      | Closed =>
          dsimp only
          exact ih ⟨clearRange acc.messages st.recipient st.first_index st.last_index,
            if st.signals_exist then setSignal acc.signals st.recipient [] else acc.signals,
            acc.fee, acc.result⟩
      | Full =>
          dsimp only
          exact ih _
      | Ready a b =>
          dsimp only
          by_cases hb : acc.result.length = mc
          · simp [hb]
          · simp only [hb, if_false]
            refine List.IsPrefix.trans ?_ (ih _)
            rcases processReady_result cfg acc st a b with h | ⟨pg, h, -⟩
            · rw [h]
            · rw [h]
              exact ⟨[(st.recipient, pg)], rfl⟩

/-- The loop's result grows by at most one entry per registry record. -/
theorem takeLoop_result_length (cfg : Config) (mc : Nat)
    (l : List OutboundChannelDetails) (acc : TakeAcc) :
    (takeLoop cfg mc l acc).2.result.length ≤ acc.result.length + l.length := by
  induction l generalizing acc with
  | nil => simp [takeLoop]
  | cons st rest ih =>
      simp only [takeLoop]
      cases hs : cfg.getChannelStatus st.recipient with
      | Closed =>
          dsimp only
          have := ih (⟨clearRange acc.messages st.recipient st.first_index st.last_index,
            if st.signals_exist then setSignal acc.signals st.recipient [] else acc.signals,
            acc.fee, acc.result⟩)
          dsimp only at this
          simp only [List.length_cons]
          omega
      | Full =>
          dsimp only
          have := ih acc
          simp only [List.length_cons]
          omega
      | Ready a b =>
          dsimp only
          by_cases hb : acc.result.length = mc
          · simp [hb]
          · simp only [hb, if_false]
            have h1 := ih ((processReady cfg acc st a b).1)
            have h2 := processReady_result_length cfg acc st a b
            simp only [List.length_cons]
            omega

/-- Peers that do not occur in the remaining registry records keep their
signal entry and all their pages through the loop. -/
theorem takeLoop_untouched (cfg : Config) (mc : Nat)
    (l : List OutboundChannelDetails) (acc : TakeAcc) (p : ParaId)
    (hp : ∀ st ∈ l, st.recipient ≠ p) :
    (takeLoop cfg mc l acc).2.signals p = acc.signals p ∧
      (∀ i, (takeLoop cfg mc l acc).2.messages p i = acc.messages p i) := by
  induction l generalizing acc with
  | nil => exact ⟨rfl, fun i => rfl⟩
  | cons st rest ih =>
      have hst : st.recipient ≠ p := hp st (by simp)
      have hrest : ∀ st' ∈ rest, st'.recipient ≠ p := fun st' h => hp st' (by simp [h])
      simp only [takeLoop]
      cases hs : cfg.getChannelStatus st.recipient with
      | Closed =>
          dsimp only
          obtain ⟨ih1, ih2⟩ := ih _ hrest
          refine ⟨?_, fun i => ?_⟩
          · rw [ih1]
            by_cases hsig : st.signals_exist <;> simp [hsig, setSignal, Ne.symm hst]
          · rw [ih2]
            simp [clearRange, Ne.symm hst]
      | Full =>
          dsimp only
          exact ih _ hrest
      | Ready a b =>
          dsimp only
          by_cases hb : acc.result.length = mc
          · simp [hb]
          · simp only [hb, if_false]
            obtain ⟨ih1, ih2⟩ := ih _ hrest
            refine ⟨?_, fun i => ?_⟩
            · rw [ih1]
              exact processReady_signals_other cfg acc st a b p (Ne.symm hst)
            · rw [ih2]
              exact processReady_messages_other cfg acc st a b p i (Ne.symm hst)


/-- Every entry of the loop's final result was already accumulated or stems
from a registry record whose transport status is `Ready` and which had a
pending signal or was not suspended. -/
theorem takeLoop_result_mem (cfg : Config) (mc : Nat)
    (l : List OutboundChannelDetails) (acc : TakeAcc)
    (x : ParaId × List Byte) (hx : x ∈ (takeLoop cfg mc l acc).2.result) :
    x ∈ acc.result ∨
      ∃ st ∈ l, st.recipient = x.1 ∧
        (∃ a b, cfg.getChannelStatus st.recipient = .Ready a b) ∧
        (st.signals_exist = true ∨ st.state ≠ .Suspended) := by
  induction l generalizing acc with
  | nil => exact Or.inl (by simpa [takeLoop] using hx)
  | cons st rest ih =>
      simp only [takeLoop] at hx
      cases hs : cfg.getChannelStatus st.recipient with
      | Closed =>
          rw [hs] at hx
          dsimp only at hx
          rcases ih _ hx with h | ⟨st', hmem, hrec, hready, hcase⟩
          · exact Or.inl h
          · exact Or.inr ⟨st', by simp [hmem], hrec, hready, hcase⟩
      | Full =>
          rw [hs] at hx
          dsimp only at hx
          rcases ih _ hx with h | ⟨st', hmem, hrec, hready, hcase⟩
          · exact Or.inl h
          · exact Or.inr ⟨st', by simp [hmem], hrec, hready, hcase⟩
      | Ready a b =>
          rw [hs] at hx
          dsimp only at hx
          by_cases hb : acc.result.length = mc
          · rw [if_pos hb] at hx
            exact Or.inl hx
          · rw [if_neg hb] at hx
            dsimp only at hx
            rcases ih _ hx with h | ⟨st', hmem, hrec, hready, hcase⟩
            · rcases processReady_result cfg acc st a b with hres | ⟨pg, hres, hflag⟩
              · rw [hres] at h
                exact Or.inl h
              · rw [hres] at h
                rcases List.mem_append.1 h with h' | h'
                · exact Or.inl h'
                · have hxst : x = (st.recipient, pg) := by simpa using h'
                  exact Or.inr ⟨st, by simp, by simp [hxst], ⟨a, b, hs⟩, hflag⟩
            · exact Or.inr ⟨st', by simp [hmem], hrec, hready, hcase⟩

/-- Membership through the stable one-element insertion. -/
theorem mem_insertByKey (x y : ParaId × List Byte) (l : List (ParaId × List Byte)) :
    y ∈ insertByKey x l ↔ y = x ∨ y ∈ l := by
  induction l with
  | nil => simp [insertByKey]
  | cons z zs ih =>
      simp only [insertByKey]
      split_ifs with h
      · simp [List.mem_cons]
      · simp only [List.mem_cons, ih]
        tauto

/-- The stable sort neither adds nor removes entries. -/
theorem mem_sortByKey (y : ParaId × List Byte) (l : List (ParaId × List Byte)) :
    y ∈ sortByKey l ↔ y ∈ l := by
  induction l with
  | nil => simp [sortByKey]
  | cons x xs ih => simp [sortByKey, mem_insertByKey, ih]

/-- The anti-starvation rotation neither adds nor removes records. -/
theorem mem_rotateLeftBy (x : OutboundChannelDetails) (l : List OutboundChannelDetails)
    (k : Nat) : x ∈ rotateLeftBy l k ↔ x ∈ l := by
  unfold rotateLeftBy
  split_ifs with h
  · constructor
    · intro hx
      rcases List.mem_append.1 hx with h' | h'
      · exact List.mem_of_mem_drop h'
      · exact List.mem_of_mem_take h'
    · intro hx
      have hx' : x ∈ l.take k ++ l.drop k := by
        rw [List.take_append_drop]
        exact hx
      rcases List.mem_append.1 hx' with h' | h'
      · exact List.mem_append.2 (Or.inr h')
      · exact List.mem_append.2 (Or.inl h')
  · exact Iff.rfl


/-! ## C7: signals are exempt from suspension -/

/-- One `Ready` iteration on a record with a pending signal that fits both
size limits: the signal page is appended to the result, the signal store entry
is cleared, pages are untouched and the flag is reset. -/
theorem processReady_signal_step (cfg : Config) (acc : TakeAcc)
    (st : OutboundChannelDetails) (n e : Nat) (p : ParaId)
    (hrp : st.recipient = p) (hsig : st.signals_exist = true)
    (hfit : (acc.signals p).length < n) (hever : (acc.signals p).length ≤ e) :
    (processReady cfg acc st n e).1.signals p = [] ∧
      (processReady cfg acc st n e).1.result = acc.result ++ [(p, acc.signals p)] ∧
      (processReady cfg acc st n e).2.signals_exist = false := by
  have hever' : ¬ ((acc.signals p).length > e) := not_lt.mpr hever
  unfold processReady
  rw [hrp]
  by_cases h7 : st.first_index = st.last_index <;>
    simp [hsig, hfit, hever', h7, setSignal]

/-- Core induction for C7: given enough budget, a registry record with a
pending signal whose page fits both limits of its `Ready` channel leads the
loop to emit the signal page for its peer, clear the signal store entry and
reset the flag on the returned record. -/
theorem takeLoop_signal_emitted (cfg : Config) (mc : Nat)
    (l : List OutboundChannelDetails) (acc : TakeAcc) (p : ParaId)
    (r : OutboundChannelDetails) (n e : Nat)
    (hrp : r.recipient = p) (hsig : r.signals_exist = true)
    (hstatus : cfg.getChannelStatus p = .Ready n e)
    (hmc : acc.result.length + l.length ≤ mc)
    (hnodup : (l.map (fun c => c.recipient)).Nodup)
    (hr : r ∈ l)
    (hfit : (acc.signals p).length < n) (hever : (acc.signals p).length ≤ e) :
    (p, acc.signals p) ∈ (takeLoop cfg mc l acc).2.result ∧
      (takeLoop cfg mc l acc).2.signals p = [] ∧
      (∀ st' ∈ (takeLoop cfg mc l acc).1, st'.recipient = p →
        st'.signals_exist = false) := by
  induction l generalizing acc with
  | nil => cases hr
  | cons st rest ih =>
      have hb : ¬ (acc.result.length = mc) := by
        simp only [List.length_cons] at hmc
        omega
      have hnc : st.recipient ∉ rest.map (fun c => c.recipient) ∧
          (rest.map (fun c => c.recipient)).Nodup :=
        List.nodup_cons.1 hnodup
      have hnodup' := hnc.2
      rcases List.mem_cons.1 hr with heq | hr'
      · subst heq
        simp only [takeLoop, hrp, hstatus]
        rw [if_neg hb]
        dsimp only
        obtain ⟨hs1, hs2, hs4⟩ := processReady_signal_step cfg acc r n e p hrp hsig hfit hever
        have hp_rest : ∀ u ∈ rest, u.recipient ≠ p := by
          intro u hu hup
          apply hnc.1
          rw [hrp]
          have : u.recipient ∈ rest.map (fun c => c.recipient) :=
            List.mem_map_of_mem _ hu
          rw [hup] at this
          exact this
        obtain ⟨hu1, hu2⟩ :=
          takeLoop_untouched cfg mc rest (processReady cfg acc r n e).1 p hp_rest
        refine ⟨?_, ?_, ?_⟩
        · have hpre := takeLoop_result_prefix cfg mc rest (processReady cfg acc r n e).1
          apply hpre.subset
          rw [hs2]
          simp
        · rw [hu1, hs1]
        · intro st' hst' hst'p
          rcases List.mem_cons.1 hst' with heq' | h
          · rw [heq']
            exact hs4
          · exfalso
            have hmem : st'.recipient ∈
                (takeLoop cfg mc rest (processReady cfg acc r n e).1).1.map
                  (fun c => c.recipient) :=
              List.mem_map_of_mem _ h
            rw [takeLoop_recipients] at hmem
            rcases List.mem_map.1 hmem with ⟨u, hu, hurec⟩
            exact hp_rest u hu (by rw [hurec, hst'p])
      · have hstp : st.recipient ≠ p := by
          intro h
          apply hnc.1
          rw [h]
          have : r.recipient ∈ rest.map (fun c => c.recipient) :=
            List.mem_map_of_mem _ hr'
          rw [hrp] at this
          exact this
        simp only [takeLoop]
        cases hs : cfg.getChannelStatus st.recipient with
        | Closed =>
            dsimp only
            have hsigp : (if st.signals_exist then setSignal acc.signals st.recipient []
                else acc.signals) p = acc.signals p := by
              by_cases hsg : st.signals_exist <;> simp [hsg, setSignal, Ne.symm hstp]
            obtain ⟨m1, m2, m3⟩ := ih
              (⟨clearRange acc.messages st.recipient st.first_index st.last_index,
                if st.signals_exist then setSignal acc.signals st.recipient [] else acc.signals,
                acc.fee, acc.result⟩)
              (by dsimp only; simp only [List.length_cons] at hmc; omega)
              hnodup' hr' (by dsimp only; rw [hsigp]; exact hfit)
              (by dsimp only; rw [hsigp]; exact hever)
            dsimp only at m1
            rw [hsigp] at m1
            refine ⟨m1, m2, ?_⟩
            intro st' hst' hst'p
            rcases List.mem_cons.1 hst' with heq' | h
            · rw [heq'] at hst'p
              exact absurd hst'p hstp
            · exact m3 st' h hst'p
        | Full =>
            dsimp only
            obtain ⟨m1, m2, m3⟩ := ih acc
              (by simp only [List.length_cons] at hmc; omega)
              hnodup' hr' hfit hever
            refine ⟨m1, m2, ?_⟩
            intro st' hst' hst'p
            rcases List.mem_cons.1 hst' with heq' | h
            · rw [heq'] at hst'p
              exact absurd hst'p hstp
            · exact m3 st' h hst'p
        | Ready a b =>
            dsimp only
            rw [if_neg hb]
            dsimp only
            have hsigp : (processReady cfg acc st a b).1.signals p = acc.signals p :=
              processReady_signals_other cfg acc st a b p (Ne.symm hstp)
            obtain ⟨m1, m2, m3⟩ := ih ((processReady cfg acc st a b).1)
              (by
                have h1 := processReady_result_length cfg acc st a b
                simp only [List.length_cons] at hmc
                omega)
              hnodup' hr' (by rw [hsigp]; exact hfit) (by rw [hsigp]; exact hever)
            rw [hsigp] at m1
            refine ⟨m1, m2, ?_⟩
            intro st' hst' hst'p
            rcases List.mem_cons.1 hst' with heq' | h
            · rw [heq', processReady_recipient] at hst'p
              exact absurd hst'p hstp
            · exact m3 st' h hst'p


/-- The result component of `take_outbound_messages`, unfolded. -/
theorem takeOutboundMessages_fst (cfg : Config) (s : XcmpState) (maxCh : Nat) :
    (takeOutboundMessages cfg s maxCh).1 =
      sortByKey (takeLoop cfg (min s.outboundStatus.length maxCh) s.outboundStatus
        ⟨s.outboundMessages, s.signalMessages, s.feeFactor, []⟩).2.result := rfl

/-- The signal store after `take_outbound_messages`, unfolded. -/
theorem takeOutboundMessages_signals (cfg : Config) (s : XcmpState) (maxCh : Nat) :
    (takeOutboundMessages cfg s maxCh).2.signalMessages =
      (takeLoop cfg (min s.outboundStatus.length maxCh) s.outboundStatus
        ⟨s.outboundMessages, s.signalMessages, s.feeFactor, []⟩).2.signals := rfl

/-- The page store after `take_outbound_messages`, unfolded. -/
theorem takeOutboundMessages_messages (cfg : Config) (s : XcmpState) (maxCh : Nat) :
    (takeOutboundMessages cfg s maxCh).2.outboundMessages =
      (takeLoop cfg (min s.outboundStatus.length maxCh) s.outboundStatus
        ⟨s.outboundMessages, s.signalMessages, s.feeFactor, []⟩).2.messages := rfl

/-- Every record kept in the registry by `take_outbound_messages` comes from
the loop's output and passes the retention predicate. -/
theorem takeOutboundMessages_status_mem (cfg : Config) (s : XcmpState) (maxCh : Nat)
    (r' : OutboundChannelDetails)
    (h : r' ∈ (takeOutboundMessages cfg s maxCh).2.outboundStatus) :
    r' ∈ (takeLoop cfg (min s.outboundStatus.length maxCh) s.outboundStatus
        ⟨s.outboundMessages, s.signalMessages, s.feeFactor, []⟩).1 ∧
      (r'.state = .Suspended ∨ r'.signals_exist = true ∨
        r'.first_index < r'.last_index) := by
  have h' : r' ∈ rotateLeftBy
      ((takeLoop cfg (min s.outboundStatus.length maxCh) s.outboundStatus
          ⟨s.outboundMessages, s.signalMessages, s.feeFactor, []⟩).1.filter fun x =>
        decide (x.state = .Suspended ∨ x.signals_exist = true ∨
          x.first_index < x.last_index))
      ((sortByKey (takeLoop cfg (min s.outboundStatus.length maxCh) s.outboundStatus
          ⟨s.outboundMessages, s.signalMessages, s.feeFactor, []⟩).2.result).length -
        (s.outboundStatus.length -
          ((takeLoop cfg (min s.outboundStatus.length maxCh) s.outboundStatus
              ⟨s.outboundMessages, s.signalMessages, s.feeFactor, []⟩).1.filter fun x =>
            decide (x.state = .Suspended ∨ x.signals_exist = true ∨
              x.first_index < x.last_index)).length)) := h
  rw [mem_rotateLeftBy] at h'
  have h2 := List.mem_filter.1 h'
  exact ⟨h2.1, by simpa using h2.2⟩

/-- C7 (amended): signals are exempt from suspension.  For every registry
record with a pending signal, `take_outbound_messages` (with enough channel
budget) emits the pending signal page and clears the flag when the transport
reports `Ready` and the signal frame fits the current size limit and does not
exceed the historical maximum size, even when the record's state is
`Suspended`; whereas a data page of a `Suspended` record is never emitted. -/
theorem signals_exempt_from_suspension :
    (∀ (cfg : Config) (s : XcmpState) (maxCh : Nat) (p : ParaId)
        (r : OutboundChannelDetails) (n e : Nat),
      s.outboundStatus.length ≤ maxCh →
      (s.outboundStatus.map (fun c => c.recipient)).Nodup →
      r ∈ s.outboundStatus → r.recipient = p → r.signals_exist = true →
      cfg.getChannelStatus p = .Ready n e →
      (s.signalMessages p).length < n → (s.signalMessages p).length ≤ e →
      ((p, s.signalMessages p) ∈ (takeOutboundMessages cfg s maxCh).1 ∧
        (takeOutboundMessages cfg s maxCh).2.signalMessages p = [] ∧
        ∀ r' ∈ (takeOutboundMessages cfg s maxCh).2.outboundStatus,
          r'.recipient = p → r'.signals_exist = false)) ∧
    (∀ (cfg : Config) (s : XcmpState) (maxCh : Nat) (p : ParaId)
        (r : OutboundChannelDetails),
      (s.outboundStatus.map (fun c => c.recipient)).Nodup →
      r ∈ s.outboundStatus → r.recipient = p → r.state = .Suspended →
      r.signals_exist = false →
      ∀ b, (p, b) ∉ (takeOutboundMessages cfg s maxCh).1) := by
  constructor
  · intro cfg s maxCh p r n e hch hnodup hr hrp hsig hstatus hfit hever
    obtain ⟨m1, m2, m3⟩ := takeLoop_signal_emitted cfg (min s.outboundStatus.length maxCh)
      s.outboundStatus ⟨s.outboundMessages, s.signalMessages, s.feeFactor, []⟩ p r n e
      hrp hsig hstatus (by dsimp only; simp only [List.length_nil]; omega)
      hnodup hr hfit hever
    refine ⟨?_, ?_, ?_⟩
    · rw [takeOutboundMessages_fst, mem_sortByKey]
      exact m1
    · rw [takeOutboundMessages_signals]
      exact m2
    · intro r' hr' hr'p
      exact m3 r' (takeOutboundMessages_status_mem cfg s maxCh r' hr').1 hr'p
  · intro cfg s maxCh p r hnodup hr hrp hstate hsig b hmem
    rw [takeOutboundMessages_fst, mem_sortByKey] at hmem
    rcases takeLoop_result_mem cfg (min s.outboundStatus.length maxCh) s.outboundStatus
      ⟨s.outboundMessages, s.signalMessages, s.feeFactor, []⟩ (p, b) hmem with
      h | ⟨st, hst, hstrec, -, hflag⟩
    · simp at h
    · have hst_eq : st = r :=
        List.inj_on_of_nodup_map hnodup hst hr (by rw [hstrec, hrp])
      rw [hst_eq] at hflag
      rcases hflag with h1 | h1
      · rw [hsig] at h1
        cases h1
      · exact h1 hstate

/-- C7 counterexample: peer 5's record is suspended with a pending 2-byte
signal page; the transport reports `Ready 10 0`, so the frame fits the current
size limit (2 < 10).  The claim says the signal page is emitted, but the
scheduler drops it (it exceeds the historical maximum 0) and returns no
messages at all — while still clearing the flag and the store entry. -/
theorem signal_fits_now_not_emitted_cex :
    (stateC7.signalMessages 5).length < 10 ∧
    stateC7.outboundStatus =
      [{ recipient := 5, state := .Suspended, signals_exist := true,
         first_index := 0, last_index := 0 }] ∧
    (takeOutboundMessages cfgC7 stateC7 5).1 = [] := by
  exact ⟨by decide, rfl, rfl⟩

/-- Closed instantiation of the amended C7 theorem: with `Ready 50 50` the
same pending signal is emitted. -/
theorem signals_exempt_from_suspension_witness :
    (5, stateC7.signalMessages 5) ∈ (takeOutboundMessages cfgA stateC7 3).1 ∧
      (takeOutboundMessages cfgA stateC7 3).2.signalMessages 5 = [] ∧
      ∀ r' ∈ (takeOutboundMessages cfgA stateC7 3).2.outboundStatus,
        r'.recipient = 5 → r'.signals_exist = false :=
  signals_exempt_from_suspension.1 cfgA stateC7 3 5
    { recipient := 5, state := .Suspended, signals_exist := true,
      first_index := 0, last_index := 0 } 50 50
    (by decide) (by decide) (by decide) rfl rfl rfl (by decide) (by decide)


/-! ## C8: closed channels are purged -/

/-- Core induction for C8: given enough budget, a registry record whose
channel the transport reports `Closed` leads the loop to clear the peer's
signal entry and every page in its range, and to reset its record. -/
theorem takeLoop_closed_purged (cfg : Config) (mc : Nat)
    (l : List OutboundChannelDetails) (acc : TakeAcc) (p : ParaId)
    (r : OutboundChannelDetails)
    (hrp : r.recipient = p)
    (hstatus : cfg.getChannelStatus p = .Closed)
    (hmc : acc.result.length + l.length ≤ mc)
    (hnodup : (l.map (fun c => c.recipient)).Nodup)
    (hr : r ∈ l)
    (hwf : r.signals_exist = false → acc.signals p = []) :
    (takeLoop cfg mc l acc).2.signals p = [] ∧
      (∀ i, r.first_index ≤ i → i < r.last_index →
        (takeLoop cfg mc l acc).2.messages p i = []) ∧
      (∀ st' ∈ (takeLoop cfg mc l acc).1, st'.recipient = p →
        st' = OutboundChannelDetails.new p) := by
  induction l generalizing acc with
  | nil => cases hr
  | cons st rest ih =>
      have hb : ¬ (acc.result.length = mc) := by
        simp only [List.length_cons] at hmc
        omega
      have hnc : st.recipient ∉ rest.map (fun c => c.recipient) ∧
          (rest.map (fun c => c.recipient)).Nodup :=
        List.nodup_cons.1 hnodup
      rcases List.mem_cons.1 hr with heq | hr'
      · subst heq
        simp only [takeLoop, hrp, hstatus]
        have hp_rest : ∀ u ∈ rest, u.recipient ≠ p := by
          intro u hu hup
          apply hnc.1
          rw [hrp]
          have : u.recipient ∈ rest.map (fun c => c.recipient) :=
            List.mem_map_of_mem _ hu
          rw [hup] at this
          exact this
        have hsigp : (if r.signals_exist then setSignal acc.signals p []
            else acc.signals) p = [] := by
          by_cases hsg : r.signals_exist
          · simp [hsg, setSignal]
          · simp only [hsg, if_false]
            exact hwf (by simpa using hsg)
        have hmsg : ∀ i, r.first_index ≤ i → i < r.last_index →
            clearRange acc.messages p r.first_index r.last_index p i = [] := by
          intro i h1 h2
          simp [clearRange, h1, h2]
        obtain ⟨hu1, hu2⟩ := takeLoop_untouched cfg mc rest
          ⟨clearRange acc.messages p r.first_index r.last_index,
            if r.signals_exist then setSignal acc.signals p [] else acc.signals,
            acc.fee, acc.result⟩ p hp_rest
        refine ⟨?_, ?_, ?_⟩
        · rw [hu1]
          exact hsigp
        · intro i h1 h2
          rw [hu2 i]
          exact hmsg i h1 h2
        · intro st' hst' hst'p
          rcases List.mem_cons.1 hst' with heq' | h
          · exact heq'
          · exfalso
            have hmem : st'.recipient ∈
                (takeLoop cfg mc rest
                  ⟨clearRange acc.messages p r.first_index r.last_index,
                    if r.signals_exist then setSignal acc.signals p []
                    else acc.signals,
                    acc.fee, acc.result⟩).1.map (fun c => c.recipient) :=
              List.mem_map_of_mem _ h
            rw [takeLoop_recipients] at hmem
            rcases List.mem_map.1 hmem with ⟨u, hu, hurec⟩
            exact hp_rest u hu (by rw [hurec, hst'p])
      · have hstp : st.recipient ≠ p := by
          intro h
          apply hnc.1
          rw [h]
          have : r.recipient ∈ rest.map (fun c => c.recipient) :=
            List.mem_map_of_mem _ hr'
          rw [hrp] at this
          exact this
        simp only [takeLoop]
        cases hs : cfg.getChannelStatus st.recipient with
        | Closed =>
            dsimp only
            have hsigp : (if st.signals_exist then setSignal acc.signals st.recipient []
                else acc.signals) p = acc.signals p := by
              by_cases hsg : st.signals_exist <;> simp [hsg, setSignal, Ne.symm hstp]
            obtain ⟨m1, m2, m3⟩ := ih
              (⟨clearRange acc.messages st.recipient st.first_index st.last_index,
                if st.signals_exist then setSignal acc.signals st.recipient [] else acc.signals,
                acc.fee, acc.result⟩)
              (by dsimp only; simp only [List.length_cons] at hmc; omega)
              hnc.2 hr' (by dsimp only; rw [hsigp]; exact hwf)
            refine ⟨m1, m2, ?_⟩
            intro st' hst' hst'p
            rcases List.mem_cons.1 hst' with heq' | h
            · exfalso
              apply hstp
              rw [← hst'p, heq']
              rfl
            · exact m3 st' h hst'p
        | Full =>
            dsimp only
            obtain ⟨m1, m2, m3⟩ := ih acc
              (by simp only [List.length_cons] at hmc; omega)
              hnc.2 hr' hwf
            refine ⟨m1, m2, ?_⟩
            intro st' hst' hst'p
            rcases List.mem_cons.1 hst' with heq' | h
            · rw [heq'] at hst'p
              exact absurd hst'p hstp
            · exact m3 st' h hst'p
        | Ready a b =>
            dsimp only
            rw [if_neg hb]
            dsimp only
            have hsigp : (processReady cfg acc st a b).1.signals p = acc.signals p :=
              processReady_signals_other cfg acc st a b p (Ne.symm hstp)
            obtain ⟨m1, m2, m3⟩ := ih ((processReady cfg acc st a b).1)
              (by
                have h1 := processReady_result_length cfg acc st a b
                simp only [List.length_cons] at hmc
                omega)
              hnc.2 hr' (by rw [hsigp]; exact hwf)
            refine ⟨m1, ?_, ?_⟩
            · intro i h1 h2
              rw [m2 i h1 h2]
            · intro st' hst' hst'p
              rcases List.mem_cons.1 hst' with heq' | h
              · rw [heq', processReady_recipient] at hst'p
                exact absurd hst'p hstp
              · exact m3 st' h hst'p

/-- C8: when the transport reports a peer's channel `Closed` during
`take_outbound_messages` (with enough channel budget to visit it), every
stored page of that peer in `[first_index, last_index)` and its signal entry
are deleted, nothing is emitted for that peer, and afterwards the registry
contains no record for that peer. -/
theorem closed_channel_purged (cfg : Config) (s : XcmpState) (maxCh : Nat)
    (p : ParaId) (r : OutboundChannelDetails)
    (hch : s.outboundStatus.length ≤ maxCh)
    (hnodup : (s.outboundStatus.map (fun c => c.recipient)).Nodup)
    (hr : r ∈ s.outboundStatus) (hrp : r.recipient = p)
    (hstatus : cfg.getChannelStatus p = .Closed)
    (hwf : r.signals_exist = false → s.signalMessages p = []) :
    (takeOutboundMessages cfg s maxCh).2.signalMessages p = [] ∧
      (∀ i, r.first_index ≤ i → i < r.last_index →
        (takeOutboundMessages cfg s maxCh).2.outboundMessages p i = []) ∧
      (∀ b, (p, b) ∉ (takeOutboundMessages cfg s maxCh).1) ∧
      (∀ r' ∈ (takeOutboundMessages cfg s maxCh).2.outboundStatus,
        r'.recipient ≠ p) := by
  obtain ⟨m1, m2, m3⟩ := takeLoop_closed_purged cfg (min s.outboundStatus.length maxCh)
    s.outboundStatus ⟨s.outboundMessages, s.signalMessages, s.feeFactor, []⟩ p r
    hrp hstatus (by dsimp only; simp only [List.length_nil]; omega) hnodup hr hwf
  refine ⟨?_, ?_, ?_, ?_⟩
  · rw [takeOutboundMessages_signals]
    exact m1
  · intro i h1 h2
    rw [takeOutboundMessages_messages]
    exact m2 i h1 h2
  · intro b hmem
    rw [takeOutboundMessages_fst, mem_sortByKey] at hmem
    rcases takeLoop_result_mem cfg (min s.outboundStatus.length maxCh) s.outboundStatus
      ⟨s.outboundMessages, s.signalMessages, s.feeFactor, []⟩ (p, b) hmem with
      h | ⟨st, hst, hstrec, ⟨a, b', hready⟩, -⟩
    · simp at h
    · have hst_eq : st = r :=
        List.inj_on_of_nodup_map hnodup hst hr (by rw [hstrec, hrp])
      rw [hst_eq, hrp, hstatus] at hready
      cases hready
  · intro r' hr' hr'p
    obtain ⟨hmem, hpred⟩ := takeOutboundMessages_status_mem cfg s maxCh r' hr'
    have hnew : r' = OutboundChannelDetails.new p := m3 r' hmem hr'p
    rw [hnew] at hpred
    simp [OutboundChannelDetails.new] at hpred

/-- Closed instantiation of C8: the transport reports peer 5's channel closed;
its two pages and its signal entry are purged and its record dropped. -/
theorem closed_channel_purged_witness :
    (takeOutboundMessages cfgC8 stateC8 4).2.signalMessages 5 = [] ∧
      (∀ i, 0 ≤ i → i < 2 →
        (takeOutboundMessages cfgC8 stateC8 4).2.outboundMessages 5 i = []) ∧
      (∀ b, (5, b) ∉ (takeOutboundMessages cfgC8 stateC8 4).1) ∧
      (∀ r' ∈ (takeOutboundMessages cfgC8 stateC8 4).2.outboundStatus,
        r'.recipient ≠ 5) :=
  closed_channel_purged cfgC8 stateC8 4 5
    { recipient := 5, state := .Ok, signals_exist := true,
      first_index := 0, last_index := 2 }
    (by decide) (by decide) (by decide) rfl rfl (by decide)


/-! ## C10: the registry index invariant -/

/-- The record a lookup-or-create works on satisfies the index invariant
whenever every member of the list does (the out-of-range default is the fresh
record). -/
theorem getD_invariant (channels : List OutboundChannelDetails) (idx : Nat) (p : ParaId)
    (hchan : ∀ c ∈ channels, c.first_index ≤ c.last_index) :
    (channels.getD idx (OutboundChannelDetails.new p)).first_index ≤
      (channels.getD idx (OutboundChannelDetails.new p)).last_index := by
  rw [List.getD_eq_getElem?_getD]
  cases hx : channels[idx]? with
  | none => simp [OutboundChannelDetails.new]
  | some c =>
      rcases List.getElem?_eq_some_iff.1 hx with ⟨hlt, hget⟩
      have hc : c ∈ channels := by
        rw [← hget]
        exact List.getElem_mem hlt
      simp only [Option.getD_some]
      exact hchan c hc

/-- The write phase of `send_fragment` preserves the index invariant. -/
theorem sendFragmentCore_invariant (cfg : Config) (s : XcmpState) (p : ParaId)
    (format : XcmpMessageFormat) (frag : List Byte) (ci : ChannelInfo) (mms : Nat)
    (channels : List OutboundChannelDetails) (idx : Nat) (n lps : Nat) (s' : XcmpState)
    (hchan : ∀ c ∈ channels, c.first_index ≤ c.last_index)
    (hstat : IndexInvariant s)
    (hok : sendFragmentCore cfg s p format frag ci mms channels idx = .ok (n, lps, s')) :
    IndexInvariant s' := by
  have hd := getD_invariant channels idx p hchan
  simp only [sendFragmentCore] at hok
  split at hok
  · exact absurd hok (by simp)
  · rename_i n0 lps0 s0 heq
    have hs0 : IndexInvariant s0 := by
      split at heq
      · simp only [Except.ok.injEq, Prod.mk.injEq] at heq
        obtain ⟨-, -, h⟩ := heq
        intro c hc
        apply hstat
        rw [← h] at hc
        exact hc
      · split_ifs at heq
        simp only [Except.ok.injEq, Prod.mk.injEq] at heq
        obtain ⟨-, -, h⟩ := heq
        intro c hc
        rw [← h] at hc
        rcases List.mem_or_eq_of_mem_set hc with h' | h'
        · exact hchan c h'
        · rw [h']
          simp only
          omega
    split_ifs at hok <;>
      (simp only [Except.ok.injEq, Prod.mk.injEq] at hok
       obtain ⟨-, -, h⟩ := hok
       intro c hc
       apply hs0
       rw [← h] at hc
       simpa [increaseFeeFactor] using hc)

/-- `send_fragment` preserves the index invariant. -/
theorem sendFragmentAux_invariant (cfg : Config) (s : XcmpState) (p : ParaId)
    (format : XcmpMessageFormat) (frag : List Byte) (n lps : Nat) (s' : XcmpState)
    (hinv : IndexInvariant s)
    (hok : sendFragmentAux cfg s p format frag = .ok (n, lps, s')) :
    IndexInvariant s' := by
  have happend : ∀ c ∈ s.outboundStatus ++ [OutboundChannelDetails.new p],
      c.first_index ≤ c.last_index := by
    intro c hc
    rcases List.mem_append.1 hc with h' | h'
    · exact hinv c h'
    · simp only [List.mem_singleton] at h'
      rw [h']
      simp [OutboundChannelDetails.new]
  simp only [sendFragmentAux] at hok
  split at hok
  · exact absurd hok (by simp)
  · split_ifs at hok <;>
      split at hok <;>
        first
          | exact sendFragmentCore_invariant cfg s p format frag _ _ s.outboundStatus _
              n lps s' hinv hinv hok
          | exact sendFragmentCore_invariant cfg s p format frag _ _
              (s.outboundStatus ++ [OutboundChannelDetails.new p]) _ n lps s' happend hinv hok
          | exact Except.noConfusion hok

/-- Inversion of a successful `send_fragment` into `send_fragment_aux`. -/
theorem sendFragment_ok_inv (cfg : Config) (s : XcmpState) (p : ParaId)
    (format : XcmpMessageFormat) (frag : List Byte) (n : Nat) (s' : XcmpState)
    (h : sendFragment cfg s p format frag = .ok (n, s')) :
    ∃ lps, sendFragmentAux cfg s p format frag = .ok (n, lps, s') := by
  rw [sendFragment_eq_aux] at h
  cases haux : sendFragmentAux cfg s p format frag with
  | error e =>
      rw [haux] at h
      simp [Except.map] at h
  | ok t =>
      obtain ⟨n0, lps0, s0⟩ := t
      rw [haux] at h
      simp only [Except.map, Except.ok.injEq, Prod.mk.injEq] at h
      exact ⟨lps0, by rw [h.1, h.2]⟩

/-- `send_signal` preserves the index invariant. -/
theorem sendSignal_invariant (cfg : Config) (s : XcmpState) (dest : ParaId)
    (sig : ChannelSignal) (s' : XcmpState)
    (hinv : IndexInvariant s) (hok : sendSignal cfg s dest sig = .ok s') :
    IndexInvariant s' := by
  simp only [sendSignal] at hok
  split at hok <;> split_ifs at hok <;>
    (simp only [Except.ok.injEq] at hok
     intro c hc
     rw [← hok] at hc
     simp only at hc)
  · rcases List.mem_or_eq_of_mem_set hc with h' | h'
    · exact hinv c h'
    · rw [h']
      exact getD_invariant s.outboundStatus _ dest hinv
  · rcases List.mem_append.1 hc with h' | h'
    · exact hinv c h'
    · simp only [List.mem_singleton] at h'
      rw [h']
      simp [OutboundChannelDetails.new, OutboundChannelDetails.with_signals]

/-- `suspend_channel` preserves the index invariant. -/
theorem suspendChannel_invariant (cfg : Config) (s : XcmpState) (t : ParaId)
    (hinv : IndexInvariant s) : IndexInvariant (suspendChannel cfg s t) := by
  unfold suspendChannel
  split
  · intro c hc
    simp only at hc
    rcases List.mem_or_eq_of_mem_set hc with h' | h'
    · exact hinv c h'
    · rw [h']
      exact getD_invariant s.outboundStatus _ t hinv
  · split_ifs with hlen
    · intro c hc
      simp only at hc
      rcases List.mem_append.1 hc with h' | h'
      · exact hinv c h'
      · simp only [List.mem_singleton] at h'
        rw [h']
        simp [OutboundChannelDetails.new, OutboundChannelDetails.with_suspended_state]
    · exact hinv

/-- `resume_channel` preserves the index invariant. -/
theorem resumeChannel_invariant (s : XcmpState) (t : ParaId)
    (hinv : IndexInvariant s) : IndexInvariant (resumeChannel s t) := by
  unfold resumeChannel
  split
  · dsimp only
    split_ifs with hempty
    · intro c hc
      simp only at hc
      exact hinv c ((List.eraseIdx_sublist _ _).subset hc)
    · intro c hc
      simp only at hc
      rcases List.mem_or_eq_of_mem_set hc with h' | h'
      · exact hinv c h'
      · rw [h']
        exact getD_invariant s.outboundStatus _ t hinv
  · exact hinv

/-- The scheduler's loop preserves the index invariant of the registry
snapshot. -/
theorem takeLoop_invariant (cfg : Config) (mc : Nat)
    (l : List OutboundChannelDetails) (acc : TakeAcc)
    (hl : ∀ st ∈ l, st.first_index ≤ st.last_index) :
    ∀ st' ∈ (takeLoop cfg mc l acc).1, st'.first_index ≤ st'.last_index := by
  induction l generalizing acc with
  | nil =>
      intro st' h
      simp [takeLoop] at h
  | cons st rest ih =>
      have hrest : ∀ u ∈ rest, u.first_index ≤ u.last_index :=
        fun u hu => hl u (by simp [hu])
      simp only [takeLoop]
      cases hs : cfg.getChannelStatus st.recipient with
      | Closed =>
          dsimp only
          intro st' hst'
          rcases List.mem_cons.1 hst' with heq' | h
          · rw [heq']
            simp [OutboundChannelDetails.new]
          · exact ih _ hrest st' h
      | Full =>
          dsimp only
          intro st' hst'
          rcases List.mem_cons.1 hst' with heq' | h
          · rw [heq']
            exact hl st (by simp)
          · exact ih _ hrest st' h
      | Ready a b =>
          dsimp only
          by_cases hb : acc.result.length = mc
          · rw [if_pos hb]
            exact hl
          · rw [if_neg hb]
            dsimp only
            intro st' hst'
            rcases List.mem_cons.1 hst' with heq' | h
            · rw [heq']
              exact processReady_invariant cfg acc st a b (hl st (by simp))
            · exact ih _ hrest st' h

/-- C10: every `OutboundChannelDetails` record in the registry satisfies
`first_index <= last_index` (fresh records start at `0 = 0`), and this
invariant is preserved by every mutating operation: `send_fragment`,
`send_signal`, `suspend_channel`, `resume_channel` and
`take_outbound_messages`. -/
theorem index_invariant_preserved :
    (∀ p : ParaId, (OutboundChannelDetails.new p).first_index ≤
      (OutboundChannelDetails.new p).last_index) ∧
    (∀ (cfg : Config) (s : XcmpState) (p : ParaId) (format : XcmpMessageFormat)
        (frag : List Byte) (n : Nat) (s' : XcmpState), IndexInvariant s →
      sendFragment cfg s p format frag = .ok (n, s') → IndexInvariant s') ∧
    (∀ (cfg : Config) (s : XcmpState) (dest : ParaId) (sig : ChannelSignal)
        (s' : XcmpState), IndexInvariant s →
      sendSignal cfg s dest sig = .ok s' → IndexInvariant s') ∧
    (∀ (cfg : Config) (s : XcmpState) (t : ParaId), IndexInvariant s →
      IndexInvariant (suspendChannel cfg s t)) ∧
    (∀ (s : XcmpState) (t : ParaId), IndexInvariant s →
      IndexInvariant (resumeChannel s t)) ∧
    (∀ (cfg : Config) (s : XcmpState) (mx : Nat), IndexInvariant s →
      IndexInvariant (takeOutboundMessages cfg s mx).2) := by
  refine ⟨?_, ?_, ?_, ?_, ?_, ?_⟩
  · intro p
    simp [OutboundChannelDetails.new]
  · intro cfg s p format frag n s' hinv hok
    obtain ⟨lps, haux⟩ := sendFragment_ok_inv cfg s p format frag n s' hok
    exact sendFragmentAux_invariant cfg s p format frag n lps s' hinv haux
  · intro cfg s dest sig s' hinv hok
    exact sendSignal_invariant cfg s dest sig s' hinv hok
  · intro cfg s t hinv
    exact suspendChannel_invariant cfg s t hinv
  · intro s t hinv
    exact resumeChannel_invariant s t hinv
  · intro cfg s mx hinv
    intro c hc
    obtain ⟨hmem, -⟩ := takeOutboundMessages_status_mem cfg s mx c hc
    exact takeLoop_invariant cfg (min s.outboundStatus.length mx) s.outboundStatus
      ⟨s.outboundMessages, s.signalMessages, s.feeFactor, []⟩ hinv c hmem

/-- Closed instantiation of C10: the invariant holds after a concrete write
and after suspending a fresh channel. -/
theorem index_invariant_preserved_witness :
    IndexInvariant
        (stateAfter (sendFragment cfgA stateC2 5 .ConcatenatedVersionedXcm [7]) stateC2) ∧
      IndexInvariant (suspendChannel cfgA (emptyState cfgA) 5) :=
  ⟨index_invariant_preserved.2.1 cfgA stateC2 5 .ConcatenatedVersionedXcm [7] 2 _
      (by unfold IndexInvariant; decide) rfl,
    index_invariant_preserved.2.2.2.1 cfgA (emptyState cfgA) 5
      (by unfold IndexInvariant; decide)⟩

end XcmpQueue
